import Mathlib

/-!
# Arcaferry — verification of the natural-language specification

Shallow embedding, in Lean 4, of the parts of the Arcaferry code base that
the specification claims C1–C10 are about, together with theorems settling
each claim.  Definitions come first (translated from the Rust sources, with
file and line references), theorems after.

The embedding conventions used throughout this file:

* Rust byte buffers (`&[u8]`, `Vec<u8>`) are modelled as `List Nat`; where a
  property depends on the bytes being genuine bytes we carry the hypothesis
  `∀ b ∈ data, b < 256` explicitly.
* Rust `String`s that are only transported, spliced and compared against
  ASCII literals (PNG chunk keywords, chunk-type names) are modelled by their
  UTF-8 byte lists.  Rust's `String::from_utf8_lossy` is the identity on valid
  UTF-8 and an arbitrary ASCII string equals its lossy decoding iff the bytes
  are exactly that string's bytes, so equality tests against the ASCII
  literals `"IEND"`, `"IDAT"`, `"tEXt"`, `"iTXt"`, `"zTXt"`, `"ccv3"`,
  `"chara"` are modelled as byte-list equality against those literals' bytes.
* Rust `String`s that are inspected character-wise (cookie parsing, the
  Quack→CCv3 mapper) are modelled as Lean `String`.
* Machine integers: `u32` arithmetic is `Nat` with explicit `% 2^32`
  (`as u32` truncation in `build_png`); `i32`/`i64` are `Int`.
* `HashMap`s keyed by strings are modelled as association lists with
  overwrite-on-insert (`mapInsert`), which keeps one binding per key exactly
  like `HashMap::insert` does.
* zlib decompression (`flate2::ZlibDecoder`, used only to decode `zTXt` and
  compressed `iTXt` chunks) is an effectful external library; the functions
  that call it take an arbitrary `zlib : List Nat → Option (List Nat)`
  argument (`none` = decompression error) and all theorems hold for every
  such function.
-/

namespace Arcaferry

/-! ## Association-list maps (model of `HashMap` with string keys)

`mapInsert` overwrites an existing binding in place or appends a new one, so
each key occurs at most once — the observable behaviour of `HashMap::insert`
followed by `HashMap::get` (`mapLookup`). -/
def mapLookup {α : Type} [DecidableEq α] {β : Type} (m : List (α × β)) (k : α) : Option β :=
  match m with
  | [] => none
  | (k', v) :: rest => if k' = k then some v else mapLookup rest k

def mapInsert {α : Type} [DecidableEq α] {β : Type} (m : List (α × β)) (k : α) (v : β) :
    List (α × β) :=
  match m with
  | [] => [(k, v)]
  | (k', v') :: rest => if k' = k then (k, v) :: rest else (k', v') :: mapInsert rest k v

/-- Model of `HashMap::entry(k).or_insert(v)`: insert only when the key is
absent. -/
def mapOrInsert {α : Type} [DecidableEq α] {β : Type} (m : List (α × β)) (k : α) (v : β) :
    List (α × β) :=
  match mapLookup m k with
  | some _ => m
  | none => mapInsert m k v

/-! ## A model of `serde_json::Value`

Objects are association lists (one binding per key, like `serde_json::Map`);
numbers are modelled as `Int` — no claim inspects fractional parts. -/
inductive Json where
  | null
  | bool (b : Bool)
  | num (n : Int)
  | str (s : String)
  | arr (elems : List Json)
  | obj (fields : List (String × Json))
deriving Repr

/-- `Value::as_array`. -/
def Json.asArr : Json → Option (List Json)
  | .arr xs => some xs
  | _ => none

/-- `Value::as_str`. -/
def Json.asStr : Json → Option String
  | .str s => some s
  | _ => none

/-- `Value::as_bool`. -/
def Json.asBool : Json → Option Bool
  | .bool b => some b
  | _ => none

/-- `Value::get(key)` (object field lookup; `None` on non-objects). -/
def jsonGet (j : Json) (k : String) : Option Json :=
  match j with
  | .obj fields => mapLookup fields k
  | _ => none

/-! ## Rust string primitives used character-wise -/
/-- Rust `char::is_whitespace`: the Unicode `White_Space` property. -/
def isRustWhitespace (c : Char) : Bool :=
  c = ' ' ∨ c = '\t' ∨ c = '\n' ∨ c = '\r' ∨ c.val = 0x0B ∨ c.val = 0x0C ∨
    c.val = 0x85 ∨ c.val = 0xA0 ∨ c.val = 0x1680 ∨
    (0x2000 ≤ c.val ∧ c.val ≤ 0x200A) ∨ c.val = 0x2028 ∨ c.val = 0x2029 ∨
    c.val = 0x202F ∨ c.val = 0x205F ∨ c.val = 0x3000

/-- Rust `str::trim`. -/
def rustTrim (s : String) : String :=
  ⟨((s.toList.dropWhile isRustWhitespace).reverse.dropWhile isRustWhitespace).reverse⟩

/-- Character-list worker for `rustSplit`. -/
def splitCharsAux (sep : Char) : List Char → List Char → List (List Char)
  | [], acc => [acc.reverse]
  | c :: rest, acc =>
    if c = sep then acc.reverse :: splitCharsAux sep rest []
    else splitCharsAux sep rest (c :: acc)

/-- Rust `str::split(sep: char)`: `n` separators yield `n + 1` pieces,
empty pieces included (`"".split(c)` yields `[""]`). -/
def rustSplit (sep : Char) (s : String) : List String :=
  (splitCharsAux sep s.toList []).map (fun l => ⟨l⟩)

/-- ASCII lowercasing (model of `str::to_lowercase`, which agrees with it on
the ASCII comparisons the code performs). -/
def asciiLowerChar (c : Char) : Char :=
  if 'A' ≤ c ∧ c ≤ 'Z' then Char.ofNat (c.toNat + 32) else c

def asciiLower (s : String) : String :=
  ⟨s.toList.map asciiLowerChar⟩

end Arcaferry

namespace Arcaferry.Png

/-! ## src/src-tauri/src/png.rs — the PNG chunk engine -/
/-- `PNG_SIGNATURE` (png.rs line 7). -/
def pngSignature : List Nat := [0x89, 0x50, 0x4E, 0x47, 0x0D, 0x0A, 0x1A, 0x0A]

/-- `PngChunk` (png.rs lines 10–14): a chunk type (4 bytes) plus payload. -/
structure PngChunk where
  chunk_type : List Nat
  data : List Nat
deriving DecidableEq, Repr

/-- The two error constructors of `ArcaferryError` that png.rs can produce. -/
inductive PngError where
  | invalidPngSignature
  | pngChunkError (msg : String)
deriving DecidableEq, Repr

/-- UTF-8 bytes of the ASCII chunk-type literal `"IEND"`. -/
def iendBytes : List Nat := [0x49, 0x45, 0x4E, 0x44]

/-- UTF-8 bytes of `"IDAT"`. -/
def idatBytes : List Nat := [0x49, 0x44, 0x41, 0x54]

/-- UTF-8 bytes of `"tEXt"`. -/
def tEXtBytes : List Nat := [0x74, 0x45, 0x58, 0x74]

/-- UTF-8 bytes of `"iTXt"`. -/
def iTXtBytes : List Nat := [0x69, 0x54, 0x58, 0x74]

/-- UTF-8 bytes of `"zTXt"`. -/
def zTXtBytes : List Nat := [0x7A, 0x54, 0x58, 0x74]

/-- UTF-8 bytes of the keyword `"ccv3"`. -/
def ccv3Bytes : List Nat := [0x63, 0x63, 0x76, 0x33]

/-- UTF-8 bytes of the keyword `"chara"`. -/
def charaBytes : List Nat := [0x63, 0x68, 0x61, 0x72, 0x61]

/-- `u32::from_be_bytes` (png.rs lines 55–56). -/
def be32 (b0 b1 b2 b3 : Nat) : Nat :=
  ((b0 * 256 + b1) * 256 + b2) * 256 + b3

/-- `u32::to_be_bytes` for a value already reduced below `2^32`. -/
def u32be (n : Nat) : List Nat :=
  [n / 2 ^ 24 % 256, n / 2 ^ 16 % 256, n / 2 ^ 8 % 256, n % 256]

/-- One bit-step of the reflected CRC-32 (IEEE polynomial `0xEDB88320`),
as computed by the `crc32fast` crate. -/
def crc32Step (c : Nat) : Nat :=
  if c % 2 = 1 then (c / 2) ^^^ 0xEDB88320 else c / 2

/-- Fold one byte into the running CRC state. -/
def crc32Update (c b : Nat) : Nat :=
  crc32Step^[8] (c ^^^ b)

/-- Standard CRC-32 over a byte list (`crc32fast::Hasher`). -/
def crc32 (data : List Nat) : Nat :=
  (data.foldl crc32Update 0xFFFFFFFF) ^^^ 0xFFFFFFFF

/-- `calculate_crc` (png.rs lines 32–37): CRC-32 over `type ‖ data`. -/
def calculate_crc (chunkType data : List Nat) : Nat :=
  crc32 (chunkType ++ data)

/-- The chunk-reading loop of `read_chunks` (png.rs lines 50–82), with the
byte position expressed by consuming the front of the remaining byte list.
Each loop iteration consumes at least 12 bytes, so the `fuel` argument — with
which `read_chunks` below supplies `data.length + 1` — never runs out; all
theorems carry the hypothesis `rest.length < fuel`.

* fewer than 8 remaining bytes (`pos + 8 > data.len()`), or none at all
  (`pos ≥ data.len()`): the loop breaks / ends and the chunks so far are
  returned (the `_` match arm);
* otherwise 4 length bytes and 4 type bytes are read; if the declared
  `length + 4` CRC bytes exceed the remaining input the loop fails with
  `PngChunkError("Truncated chunk")`;
* otherwise the chunk is taken, the CRC is skipped unvalidated, and the loop
  stops right after the first `IEND` chunk. -/
def readChunksLoop : Nat → List Nat → Except PngError (List PngChunk)
  | 0, _ => .ok []
  | fuel + 1, rest =>
    match rest with
    | b0 :: b1 :: b2 :: b3 :: t0 :: t1 :: t2 :: t3 :: rest' =>
      let length := be32 b0 b1 b2 b3
      if rest'.length < length + 4 then
        .error (.pngChunkError "Truncated chunk")
      else
        let chunk : PngChunk := ⟨[t0, t1, t2, t3], rest'.take length⟩
        if [t0, t1, t2, t3] = iendBytes then
          .ok [chunk]
        else
          match readChunksLoop fuel (rest'.drop (length + 4)) with
          | .error e => .error e
          | .ok cs => .ok (chunk :: cs)
    | _ => .ok []

/-- `read_chunks` (png.rs lines 42–85).  The signature check
`data.len() < 8 || data[..8] != PNG_SIGNATURE` is expressed with `List.take`
(which also has fewer than 8 elements when the input does). -/
def read_chunks (data : List Nat) : Except PngError (List PngChunk) :=
  if data.length < 8 ∨ data.take 8 ≠ pngSignature then
    .error .invalidPngSignature
  else
    readChunksLoop (data.length + 1) (data.drop 8)

/-- Serialization of one chunk inside `build_png` (png.rs lines 94–102):
big-endian length (`data.len() as u32`, hence the `% 2^32`), type, data,
freshly computed CRC. -/
def serializeChunk (c : PngChunk) : List Nat :=
  u32be (c.data.length % 2 ^ 32) ++ c.chunk_type ++ c.data
    ++ u32be (calculate_crc c.chunk_type c.data)

/-- `build_png` (png.rs lines 90–105). -/
def build_png (chunks : List PngChunk) : List Nat :=
  pngSignature ++ chunks.flatMap serializeChunk

/-! ### Base64 (the `base64` crate's `general_purpose::STANDARD` engine)

Padded standard alphabet; decoding requires canonical padding, rejects
padding anywhere but the end, rejects characters outside the alphabet and
rejects non-zero trailing bits — the defaults of the `STANDARD` engine. -/
/-- The standard alphabet: index 0–63 to ASCII byte. -/
def b64Char (n : Nat) : Nat :=
  if n < 26 then 65 + n
  else if n < 52 then 97 + (n - 26)
  else if n < 62 then 48 + (n - 52)
  else if n = 62 then 43
  else 47

/-- Inverse alphabet: ASCII byte to 6-bit value, `none` outside the
alphabet (also for the padding byte `'='` = 61). -/
def b64Inv (c : Nat) : Option Nat :=
  if 65 ≤ c ∧ c ≤ 90 then some (c - 65)
  else if 97 ≤ c ∧ c ≤ 122 then some (c - 97 + 26)
  else if 48 ≤ c ∧ c ≤ 57 then some (c - 48 + 52)
  else if c = 43 then some 62
  else if c = 47 then some 63
  else none

/-- `BASE64.encode`: 3 input bytes to 4 alphabet bytes, `'='`-padded. -/
def base64Encode : List Nat → List Nat
  | [] => []
  | [a] => [b64Char (a / 4), b64Char (a % 4 * 16), 61, 61]
  | [a, b] => [b64Char (a / 4), b64Char (a % 4 * 16 + b / 16), b64Char (b % 16 * 4), 61]
  | a :: b :: c :: rest =>
    b64Char (a / 4) :: b64Char (a % 4 * 16 + b / 16) :: b64Char (b % 16 * 4 + c / 64)
      :: b64Char (c % 64) :: base64Encode rest

/-- `BASE64.decode`: groups of 4; the final group may end in `"="` or
`"=="`; `none` on any malformed input. -/
def base64Decode : List Nat → Option (List Nat)
  | [] => some []
  | c1 :: c2 :: c3 :: c4 :: rest =>
    match b64Inv c1, b64Inv c2 with
    | some n1, some n2 =>
      if c3 = 61 ∧ c4 = 61 ∧ rest = [] then
        if n2 % 16 = 0 then some [n1 * 4 + n2 / 16] else none
      else if c4 = 61 ∧ rest = [] then
        match b64Inv c3 with
        | some n3 =>
          if n3 % 4 = 0 then some [n1 * 4 + n2 / 16, n2 % 16 * 16 + n3 / 4] else none
        | none => none
      else
        match b64Inv c3, b64Inv c4 with
        | some n3, some n4 =>
          (base64Decode rest).map
            (fun tl => (n1 * 4 + n2 / 16) :: (n2 % 16 * 16 + n3 / 4) :: (n3 % 4 * 64 + n4) :: tl)
        | _, _ => none
    | _, _ => none
  | _ => none

/-! ### Text-chunk decoding and the inject/remove operations -/
/-- Split a byte list at its first `0` byte
(`chunk_data.iter().position(|&b| b == 0)`): the bytes before the null and
the bytes after it, or `none` when there is no null byte. -/
def splitFirstNull : List Nat → Option (List Nat × List Nat)
  | [] => none
  | b :: rest =>
    if b = 0 then some ([], rest)
    else (splitFirstNull rest).map (fun p => (b :: p.1, p.2))

/-- `decode_text_chunk` (png.rs lines 110–124): split at the first null;
keyword before, payload after; the payload is Base64-decoded when possible,
else taken raw.  (`from_utf8_lossy` on both parts is the identity in the
byte-list model, see the header comment.) -/
def decode_text_chunk (chunkData : List Nat) : Option (List Nat × List Nat) :=
  (splitFirstNull chunkData).map fun p =>
    (p.1, match base64Decode p.2 with
          | some decoded => decoded
          | none => p.2)

/-- `decode_itxt_chunk` (png.rs lines 129–163): keyword, compression flag,
compression method, null-terminated language tag, null-terminated translated
keyword, then text — zlib-decompressed when the compression flag is 1. -/
def decode_itxt_chunk (zlib : List Nat → Option (List Nat)) (chunkData : List Nat) :
    Option (List Nat × List Nat) :=
  match splitFirstNull chunkData with
  | none => none
  | some (keyword, rest) =>
    match rest with
    | compressionFlag :: _ :: rest2 =>
      match splitFirstNull rest2 with
      | none => none
      | some (_, rest3) =>
        match splitFirstNull rest3 with
        | none => none
        | some (_, textData) =>
          if compressionFlag = 1 then
            (zlib textData).map (fun d => (keyword, d))
          else
            some (keyword, textData)
    | _ => none

/-- `decode_ztxt_chunk` (png.rs lines 168–187): keyword, one
compression-method byte, then zlib-compressed text.  The guard
`null_pos + 1 >= chunk_data.len()` is exactly "nothing follows the null". -/
def decode_ztxt_chunk (zlib : List Nat → Option (List Nat)) (chunkData : List Nat) :
    Option (List Nat × List Nat) :=
  match splitFirstNull chunkData with
  | none => none
  | some (keyword, rest) =>
    match rest with
    | [] => none
    | _ :: compressed => (zlib compressed).map (fun d => (keyword, d))

/-- Decode one chunk as a text chunk according to its type, as in the match
of `read_text_chunks` (png.rs lines 198–203). -/
def decodeAnyTextChunk (zlib : List Nat → Option (List Nat)) (c : PngChunk) :
    Option (List Nat × List Nat) :=
  if c.chunk_type = tEXtBytes then decode_text_chunk c.data
  else if c.chunk_type = iTXtBytes then decode_itxt_chunk zlib c.data
  else if c.chunk_type = zTXtBytes then decode_ztxt_chunk zlib c.data
  else none

/-- `read_text_chunks` (png.rs lines 192–211): a keyword-to-text map built
by inserting each decoded text chunk in order (later chunks overwrite). -/
def read_text_chunks (zlib : List Nat → Option (List Nat)) (data : List Nat) :
    Except PngError (List (List Nat × List Nat)) :=
  match read_chunks data with
  | .error e => .error e
  | .ok chunks =>
    .ok (chunks.foldl
      (fun m c =>
        match decodeAnyTextChunk zlib c with
        | some (kw, txt) => mapInsert m kw txt
        | none => m) [])

/-- `get_card_data` (png.rs lines 217–230): prefer keyword `ccv3`, then
`chara`. -/
def get_card_data (zlib : List Nat → Option (List Nat)) (data : List Nat) :
    Except PngError (Option (List Nat × List Nat)) :=
  match read_text_chunks zlib data with
  | .error e => .error e
  | .ok textChunks =>
    match mapLookup textChunks ccv3Bytes with
    | some json => .ok (some (ccv3Bytes, json))
    | none =>
      match mapLookup textChunks charaBytes with
      | some json => .ok (some (charaBytes, json))
      | none => .ok none

/-- `build_text_chunk_data` (png.rs lines 235–241): `keyword ‖ 0 ‖
Base64(text)`. -/
def build_text_chunk_data (keyword text : List Nat) : List Nat :=
  keyword ++ 0 :: base64Encode text

/-- The chunk-rewriting loop of `inject_text_chunk` (png.rs lines 258–273):
every `tEXt` chunk whose decoded keyword equals `keyword` is replaced by the
new chunk (when `replace` is set); the boolean records whether any
replacement happened. -/
def injectReplaceLoop (newChunk : PngChunk) (keyword : List Nat) (replace : Bool) :
    List PngChunk → List PngChunk × Bool
  | [] => ([], false)
  | c :: rest =>
    let (tail, repl) := injectReplaceLoop newChunk keyword replace rest
    if replace ∧ c.chunk_type = tEXtBytes ∧ (decode_text_chunk c.data).map Prod.fst = some keyword
    then (newChunk :: tail, true)
    else (c :: tail, repl)

/-- The fallback insertion of `inject_text_chunk` (png.rs lines 276–284):
insert before the first `IEND` chunk, or push at the end if there is none. -/
def insertBeforeIend (newChunk : PngChunk) : List PngChunk → List PngChunk
  | [] => [newChunk]
  | c :: rest =>
    if c.chunk_type = iendBytes then newChunk :: c :: rest
    else c :: insertBeforeIend newChunk rest

/-- `inject_text_chunk` (png.rs lines 250–287). -/
def inject_text_chunk (data keyword text : List Nat) (replace : Bool) :
    Except PngError (List Nat) :=
  match read_chunks data with
  | .error e => .error e
  | .ok chunks =>
    let newChunk : PngChunk := ⟨tEXtBytes, build_text_chunk_data keyword text⟩
    let (newChunks, replaced) := injectReplaceLoop newChunk keyword replace chunks
    .ok (build_png (if replaced then newChunks else insertBeforeIend newChunk newChunks))

/-- The per-chunk removal test of `remove_text_chunk`
(png.rs lines 299–310).  `unwrap_or(false)` on a failed decode is captured
by the `Option.map`/`= some keyword` comparison. -/
def shouldRemove (zlib : List Nat → Option (List Nat)) (keyword : List Nat) (c : PngChunk) :
    Bool :=
  if c.chunk_type = tEXtBytes then (decode_text_chunk c.data).map Prod.fst = some keyword
  else if c.chunk_type = iTXtBytes then
    (decode_itxt_chunk zlib c.data).map Prod.fst = some keyword
  else if c.chunk_type = zTXtBytes then
    (decode_ztxt_chunk zlib c.data).map Prod.fst = some keyword
  else false

/-- `remove_text_chunk` (png.rs lines 292–318). -/
def remove_text_chunk (zlib : List Nat → Option (List Nat)) (data keyword : List Nat) :
    Except PngError (List Nat) :=
  match read_chunks data with
  | .error e => .error e
  | .ok chunks => .ok (build_png (chunks.filter (fun c => ¬ shouldRemove zlib keyword c)))

/-- The IDAT payloads, in order, of a chunk list. -/
def idatPayloads (chunks : List PngChunk) : List (List Nat) :=
  (chunks.filter (fun c => c.chunk_type = idatBytes)).map (·.data)

/-- `extract_idat_chunks` (png.rs lines 334–341). -/
def extract_idat_chunks (data : List Nat) : Except PngError (List (List Nat)) :=
  match read_chunks data with
  | .error e => .error e
  | .ok chunks => .ok (idatPayloads chunks)

/-! ### Parser invariants and the serialize/parse round trip -/
/-- Well-formedness that `read_chunks` guarantees for every parsed chunk:
a 4-byte type, genuine bytes, and a payload shorter than `2^32`. -/
def chunkWf (c : PngChunk) : Prop :=
  c.chunk_type.length = 4 ∧ (∀ b ∈ c.chunk_type, b < 256) ∧
    c.data.length < 2 ^ 32 ∧ (∀ b ∈ c.data, b < 256)

/-- An `IEND`-typed chunk appears at most as the final chunk. -/
def iendOnlyLast : List PngChunk → Prop
  | [] => True
  | c :: rest => (rest = [] ∨ c.chunk_type ≠ iendBytes) ∧ iendOnlyLast rest

/-- The chunk list ends in an `IEND` chunk. -/
def lastIsIend (cs : List PngChunk) : Prop :=
  cs.getLast?.map PngChunk.chunk_type = some iendBytes

/-! ### The keyword map built by `read_text_chunks` -/
/-- The value the keyword map ends up holding at key `k`: the text of the
last chunk in the list that decodes to keyword `k` (later inserts
overwrite). -/
def lastKeyVal (zlib : List Nat → Option (List Nat)) (k : List Nat) :
    List PngChunk → Option (List Nat)
  | [] => none
  | c :: cs =>
    match lastKeyVal zlib k cs with
    | some v => some v
    | none =>
      match decodeAnyTextChunk zlib c with
      | some (kw, v) => if kw = k then some v else none
      | none => none

/-! ### Concrete inputs for witnesses and counterexamples -/
/-- A zlib decompressor that always fails — one concrete instantiation of
the decompression parameter. -/
def zlibNone : List Nat → Option (List Nat) := fun _ => none

/-- A minimal well-formed PNG byte stream: signature, a 1-byte `IDAT`
chunk, `IEND`.  (CRC fields are not validated by `read_chunks`, so they are
zero here.) -/
def pngMinimal : List Nat :=
  pngSignature ++ ([0, 0, 0, 1] ++ idatBytes ++ [7] ++ [0, 0, 0, 0])
    ++ ([0, 0, 0, 0] ++ iendBytes ++ [0, 0, 0, 0])

/-- The chunks of `pngMinimal`. -/
def pngMinimalChunks : List PngChunk := [⟨idatBytes, [7]⟩, ⟨iendBytes, []⟩]

/-- A valid PNG that carries a `tEXt` chunk with keyword `ccv3` (payload
Base64 of `"x"`) followed by an `iTXt` chunk that also decodes to keyword
`ccv3` (uncompressed payload `"T"`), then `IEND`. -/
def pngWithItxt : List Nat :=
  pngSignature
    ++ ([0, 0, 0, 9] ++ tEXtBytes ++ (ccv3Bytes ++ 0 :: base64Encode [120]) ++ [0, 0, 0, 0])
    ++ ([0, 0, 0, 10] ++ iTXtBytes ++ (ccv3Bytes ++ [0, 0, 0, 0, 0, 84]) ++ [0, 0, 0, 0])
    ++ ([0, 0, 0, 0] ++ iendBytes ++ [0, 0, 0, 0])

/-- A chunk on the wire with *arbitrary* CRC bytes in place of the computed
checksum: since `read_chunks` skips the 4 CRC bytes unvalidated, every byte
stream it walks chunk-by-chunk is, up to the truncation point, a
concatenation of such wire chunks. -/
def serializeChunkWith (c : PngChunk) (crc : List Nat) : List Nat :=
  u32be (c.data.length % 2 ^ 32) ++ c.chunk_type ++ c.data ++ crc

end Arcaferry.Png

namespace Arcaferry.Quack

open Arcaferry

/-! ## src/src-tauri/src/adapters/quack.rs — upstream shapes

Each structure keeps the fields of its Rust counterpart; `#[serde(flatten)]
extra` bags are association lists.  Fields that only the HTTP client reads
(`sid`, `cid`, `index`, prologue plumbing of `QuackChatInfo`) are kept where
cheap and noted where omitted. -/
/-- `QuackAttribute` (quack.rs lines 202–213). -/
structure QuackAttribute where
  label : Option String
  name : Option String
  value : Option String
  is_visible : Option Bool
deriving DecidableEq, Repr

/-- `QuackGreetingItem` (quack.rs lines 190–199). -/
structure QuackGreetingItem where
  value : Option String
  content : Option String
  text : Option String
deriving DecidableEq, Repr

/-- `QuackPrologue` (quack.rs lines 182–187). -/
structure QuackPrologue where
  greetings : Option (List QuackGreetingItem)
deriving DecidableEq, Repr

/-- `QuackLorebookEntry` (quack.rs lines 236–270). -/
structure QuackLorebookEntry where
  keys : Option String
  content : Option String
  position : Option Int
  constant : Option Bool
  enabled : Option Bool
  insertion_order : Option Int
  case_sensitive : Option Bool
  use_regex : Option Bool
  name : Option String
  priority : Option Int
  id : Option Json
  comment : Option String
  selective : Option Bool
  secondary_keys : Option String
  extra : List (String × Json)

/-- `QuackLorebookWrapper` (quack.rs lines 225–234). -/
structure QuackLorebookWrapper where
  entry_list : Option (List QuackLorebookEntry)
  name : Option String
  extra : List (String × Json)

/-- `QuackCharListItem` (quack.rs lines 138–155). -/
structure QuackCharListItem where
  name : Option String
  attrs : Option (List QuackAttribute)
  advise_attrs : Option (List QuackAttribute)
  custom_attrs : Option (List QuackAttribute)
  prompt : Option String
  picture : Option String
  extra : List (String × Json)

/-- `QuackChatInfo` (quack.rs lines 158–179); the id fields (`sid`,
`origin_sid`, `cid`, `index`) and `studio_char_list` are carried as model
fields but only the three the mapper reads matter to the claims. -/
structure QuackChatInfo where
  sid : Option Json
  origin_sid : Option Json
  cid : Option Json
  index : Option Json
  char_mes_example : Option String
  char_creator_notes : Option String
  studio_prologue : Option QuackPrologue
  extra : List (String × Json)

/-- `QuackCharacterInfo` (quack.rs lines 81–135). -/
structure QuackCharacterInfo where
  sid : Option Json
  id : Option Json
  index : Option Json
  cid : Option Json
  name : String
  description : Option String
  personality : Option String
  scenario : Option String
  first_mes : Option String
  mes_example : Option String
  system_prompt : Option String
  post_history_instructions : Option String
  creator : Option String
  creator_notes : Option String
  custom_attrs : Option Json
  greeting : Option Json
  picture : Option String
  char_list : Option (List QuackCharListItem)
  chat_info : Option QuackChatInfo
  characterbooks : Option (List QuackLorebookWrapper)
  prologue : Option QuackPrologue
  author_name : Option String
  intro : Option String
  extra : List (String × Json)

/-! ## src/src-tauri/src/ccv3.rs — the CCv3 target shapes -/
/-- `LorebookEntry` (ccv3.rs lines 10–41). -/
structure LorebookEntry where
  keys : List String
  secondary_keys : List String
  content : String
  enabled : Bool
  insertion_order : Int
  case_sensitive : Option Bool
  use_regex : Bool
  constant : Option Bool
  name : Option String
  priority : Option Int
  id : Option Json
  comment : Option String
  selective : Option Bool
  position : Option String
  extensions : List (String × Json)

/-- `Lorebook` (ccv3.rs lines 44–60). -/
structure Lorebook where
  name : String
  description : String
  scan_depth : Option Int
  token_budget : Option Int
  recursive_scanning : Option Bool
  entries : List LorebookEntry
  extensions : List (String × Json)

/-- `CharacterCardData` (ccv3.rs lines 74–124), restricted to the fields the
mapper assigns; the remaining fields (`assets`, `nickname`,
`creator_notes_multilingual`, `source`, `group_only_greetings`,
`extensions`) come from `Default::default()` in `map_quack_to_v3` and no
claim mentions them. -/
structure CharacterCardData where
  name : String
  description : String
  personality : String
  scenario : String
  first_mes : String
  mes_example : String
  alternate_greetings : List String
  system_prompt : String
  post_history_instructions : String
  character_book : Option Lorebook
  creator : String
  creator_notes : String
  tags : List String
  character_version : String
  creation_date : Option Int
  modification_date : Option Int

/-- `CharacterCardV3` (ccv3.rs lines 126–131). -/
structure CharacterCardV3 where
  spec : String
  spec_version : String
  data : CharacterCardData

/-! ## The Quack → CCv3 mapper (quack.rs lines 862–1260) -/
/-- `format_attrs` (quack.rs lines 865–880): one `[Label: Value]` line per
attribute that passes the visibility filter and has a present label-or-name
and a present value, both non-empty; joined with `"\n"`. -/
def format_attrs (attrs : List QuackAttribute) (visible_only : Bool) : String :=
  String.intercalate "\n"
    ((attrs.filter (fun a => !visible_only || a.is_visible.getD true)).filterMap
      (fun a =>
        match a.label.or a.name, a.value with
        | some label, some value =>
          if label ≠ "" ∧ value ≠ "" then some ("[" ++ label ++ ": " ++ value ++ "]")
          else none
        | _, _ => none))

/-- `format_hidden_attrs` (quack.rs lines 883–898). -/
def format_hidden_attrs (attrs : List QuackAttribute) : String :=
  String.intercalate "\n"
    ((attrs.filter (fun a => !(a.is_visible.getD true))).filterMap
      (fun a =>
        match a.label.or a.name, a.value with
        | some label, some value =>
          if label ≠ "" ∧ value ≠ "" then some ("[" ++ label ++ ": " ++ value ++ "]")
          else none
        | _, _ => none))

/-- `extract_personality` (quack.rs lines 901–912).  (`to_lowercase` is
modelled as ASCII lowercasing; the comparison target `"personality"` is
ASCII.) -/
def extract_personality (attrs : List QuackAttribute) : String :=
  ((attrs.find? (fun a =>
      match a.label.or a.name with
      | some l => asciiLower l = "personality"
      | none => false)).bind (fun a => a.value)).getD ""

/-- `extract_greetings` (quack.rs lines 918–944): pull
`value`/`content`/`text` strings out of a raw JSON array, drop empties,
first becomes `first_mes`, the rest alternates. -/
def extract_greetings (greetings : Json) : String × List String :=
  match greetings.asArr with
  | none => ("", [])
  | some arr =>
    let greetingValues := (arr.filterMap fun g =>
      (((jsonGet g "value").bind Json.asStr).or
        ((jsonGet g "content").bind Json.asStr)).or
        ((jsonGet g "text").bind Json.asStr)).filter (fun s => s ≠ "")
    match greetingValues with
    | [] => ("", [])
    | first :: alts => (first, alts)

/-- `extract_greetings_from_prologue` (quack.rs lines 946–972). -/
def extract_greetings_from_prologue (prologue : QuackPrologue) : String × List String :=
  match prologue.greetings with
  | none => ("", [])
  | some gs =>
    let greetingValues := (gs.filterMap fun g =>
      (g.value.or g.content).or g.text).filter (fun s => s ≠ "")
    match greetingValues with
    | [] => ("", [])
    | first :: alts => (first, alts)

/-- `parse_keys` (quack.rs lines 975–984): split on `','`, trim each piece,
drop empties; `None` gives `[]`. -/
def parse_keys (keysStr : Option String) : List String :=
  match keysStr with
  | some k => ((rustSplit ',' k).map rustTrim).filter (fun s => s ≠ "")
  | none => []

/-- `map_lorebook_entry` (quack.rs lines 992–1039). -/
def map_lorebook_entry (entry : QuackLorebookEntry) (index : Int) : LorebookEntry :=
  let keys0 := parse_keys entry.keys
  let constant := entry.constant.getD false
  let keys := if keys0.isEmpty && !constant then
      match entry.name with
      | some name => if name ≠ "" then [name] else keys0
      | none => keys0
    else keys0
  let secondaryKeys := parse_keys entry.secondary_keys
  let selective := !secondaryKeys.isEmpty
  let position := if entry.position = some 0 then some "before_char"
    else if entry.position = some 1 then some "after_char"
    else some "before_char"
  { keys := keys
    secondary_keys := secondaryKeys
    content := entry.content.getD ""
    enabled := entry.enabled.getD true
    insertion_order := index + 1
    case_sensitive := some (entry.case_sensitive.getD false)
    use_regex := entry.use_regex.getD false
    constant := some constant
    name := entry.name
    priority := some (entry.priority.getD 10)
    id := some (.num (index + 1))
    comment := entry.comment
    selective := some selective
    position := position
    extensions := entry.extra }

/-- `map_lorebook` (quack.rs lines 1042–1056). -/
def map_lorebook (entries : List QuackLorebookEntry) (bookName : Option String) :
    Lorebook :=
  { name := bookName.getD "Quack Lore"
    description := ""
    scan_depth := some 50
    token_budget := some 500
    recursive_scanning := some false
    entries := entries.enum.map (fun p => map_lorebook_entry p.2 (Int.ofNat p.1))
    extensions := [] }

/-- `serde_json::from_value::<QuackAttribute>`: an object whose optional
fields `label`/`name`/`value` are strings (or null/absent) and whose
`isVisible` is a boolean (or null/absent); any other shape fails.  Unknown
keys are ignored, as serde does without `deny_unknown_fields`. -/
def jsonToAttribute (v : Json) : Option QuackAttribute :=
  match v with
  | .obj fields =>
    let getOptStr := fun (k : String) =>
      match mapLookup fields k with
      | none => some none
      | some .null => some none
      | some (.str s) => some (some s)
      | some _ => none
    let getOptBool := fun (k : String) =>
      match mapLookup fields k with
      | none => some none
      | some .null => some none
      | some (.bool b) => some (some b)
      | some _ => none
    match getOptStr "label", getOptStr "name", getOptStr "value",
        getOptBool "isVisible" with
    | some l, some n, some v', some iv =>
      some { label := l, name := n, value := v', is_visible := iv }
    | _, _, _, _ => none
  | _ => none

/-- The inner `parse_attrs` helper of `collect_all_attrs`
(quack.rs lines 1062–1070). -/
def parseAttrsJson (v : Json) : List QuackAttribute :=
  match v.asArr with
  | some arr => arr.filterMap jsonToAttribute
  | none => []

/-- `collect_all_attrs` (quack.rs lines 1059–1091): top-level raw
`custom_attrs`, then `char_list[0]`'s `attrs`, `advise_attrs`,
`custom_attrs`, in that order. -/
def collect_all_attrs (info : QuackCharacterInfo) : List QuackAttribute :=
  (match info.custom_attrs with
    | some v => parseAttrsJson v
    | none => []) ++
  (match info.char_list with
    | some (firstChar :: _) =>
      firstChar.attrs.getD [] ++ firstChar.advise_attrs.getD []
        ++ firstChar.custom_attrs.getD []
    | _ => [])

/-- The tag parse inside `extract_tags` (quack.rs lines 1095–1104):
`extra["tags"]` as an array, keeping its string elements in order. -/
def extractTagsBase (info : QuackCharacterInfo) : List String :=
  (((mapLookup info.extra "tags").bind Json.asArr).map
    (fun arr => arr.filterMap Json.asStr)).getD []

/-- `extract_tags` (quack.rs lines 1094–1112): insert `"QuackAI"` at index 0
unless already present. -/
def extract_tags (info : QuackCharacterInfo) : List String :=
  let tags := extractTagsBase info
  if tags.any (fun t => t = "QuackAI") then tags else "QuackAI" :: tags

/-- `map_quack_to_v3` (quack.rs lines 1121–1260).  `now` stands for
`chrono::Utc::now().timestamp()`, the only effect in the function. -/
def map_quack_to_v3 (now : Int) (info : QuackCharacterInfo)
    (lorebook_entries : List QuackLorebookEntry) : CharacterCardV3 :=
  let firstChar := info.char_list.bind List.head?
  let name := (firstChar.bind (fun c => c.name)).getD info.name
  let allAttrs := collect_all_attrs info
  let description := format_attrs allAttrs true
  let personality := info.personality.getD (extract_personality allAttrs)
  let p0 := (info.prologue.map extract_greetings_from_prologue).getD ("", [])
  let p1 := if p0.1 = "" then
      let pg := (info.greeting.map extract_greetings).getD ("", [])
      (pg.1, if p0.2.isEmpty then pg.2 else p0.2)
    else p0
  let firstMes := if p1.1 = "" then info.first_mes.getD "" else p1.1
  let alternateGreetings := match info.chat_info with
    | some ci =>
      match ci.studio_prologue with
      | some sp =>
        let studioAlts := (extract_greetings_from_prologue sp).2
        p1.2 ++ studioAlts.filter
          (fun g => g ≠ "" ∧ ¬ p1.2.contains g ∧ g ≠ firstMes)
      | none => p1.2
    | none => p1.2
  let tags := extract_tags info
  let characterBook := if lorebook_entries.isEmpty then
      match info.characterbooks with
      | some books =>
        let allEntries := (books.filterMap (fun b => b.entry_list)).flatten
        if allEntries.isEmpty then none
        else some (map_lorebook allEntries (some (name ++ "的世界书")))
      | none => none
    else some (map_lorebook lorebook_entries (some (name ++ "的世界书")))
  let systemPrompt0 := ((firstChar.bind (fun c => c.prompt)).or info.system_prompt).getD ""
  let hiddenAttrsBlock := format_hidden_attrs allAttrs
  let systemPrompt := if hiddenAttrsBlock ≠ "" then
      if systemPrompt0 ≠ "" then systemPrompt0 ++ "\n\n" ++ hiddenAttrsBlock
      else hiddenAttrsBlock
    else systemPrompt0
  let mesExample := ((info.chat_info.bind (fun ci => ci.char_mes_example)).or
    info.mes_example).getD ""
  let creator := (info.author_name.or info.creator).getD ""
  let creatorNotes := (((info.chat_info.bind (fun ci => ci.char_creator_notes)).or
    info.creator_notes).or info.intro).getD ""
  { spec := "chara_card_v3"
    spec_version := "3.0"
    data :=
      { name := name
        description := description
        personality := personality
        scenario := info.scenario.getD ""
        first_mes := firstMes
        mes_example := mesExample
        alternate_greetings := alternateGreetings
        system_prompt := systemPrompt
        post_history_instructions := info.post_history_instructions.getD ""
        character_book := characterBook
        creator := creator
        creator_notes := creatorNotes
        tags := tags
        character_version := "1.0"
        creation_date := some now
        modification_date := some now } }

/-! ## Claim-side formulations and concrete inputs for C3–C6 -/
/-- The description formula exactly as claim C6 words it: one
`[Label: Value]` line per attribute whose `is_visible` is true or absent and
whose effective label and value are both non-empty, where the *effective
label is the `label` if that is non-empty, else the `name`*. -/
def descriptionClaimC6 (attrs : List QuackAttribute) : String :=
  String.intercalate "\n" (attrs.filterMap (fun a =>
    let effLabel := match a.label with
      | some l => if l ≠ "" then l else a.name.getD ""
      | none => a.name.getD ""
    let value := a.value.getD ""
    if a.is_visible.getD true ∧ effLabel ≠ "" ∧ value ≠ "" then
      some ("[" ++ effLabel ++ ": " ++ value ++ "]")
    else none))

/-- Claim C6 amended at the effective label: the *effective label is the
`label` field when that is present (even when empty), else the `name`*; the
line is emitted when `is_visible` is true or absent and the effective label
and the value are both present and non-empty. -/
def descriptionAmendedC6 (attrs : List QuackAttribute) : String :=
  String.intercalate "\n" (attrs.filterMap (fun a =>
    let effLabel := (a.label.or a.name).getD ""
    let value := a.value.getD ""
    if a.is_visible.getD true ∧ effLabel ≠ "" ∧ value ≠ "" then
      some ("[" ++ effLabel ++ ": " ++ value ++ "]")
    else none))

/-- An all-absent upstream character info, the base for concrete inputs. -/
def emptyInfo : QuackCharacterInfo :=
  { sid := none, id := none, index := none, cid := none, name := ""
    description := none, personality := none, scenario := none, first_mes := none
    mes_example := none, system_prompt := none, post_history_instructions := none
    creator := none, creator_notes := none, custom_attrs := none, greeting := none
    picture := none, char_list := none, chat_info := none, characterbooks := none
    prologue := none, author_name := none, intro := none, extra := [] }

/-- An all-absent `char_list` item. -/
def emptyCharItem : QuackCharListItem :=
  { name := none, attrs := none, advise_attrs := none, custom_attrs := none
    prompt := none, picture := none, extra := [] }

/-- An all-absent upstream lorebook entry. -/
def emptyLorebookEntry : QuackLorebookEntry :=
  { keys := none, content := none, position := none, constant := none, enabled := none
    insertion_order := none, case_sensitive := none, use_regex := none, name := none
    priority := none, id := none, comment := none, selective := none
    secondary_keys := none, extra := [] }

/-- C6 counterexample attribute: `label` present but empty, `name` and
`value` non-empty, visibility absent. -/
def attrEmptyLabel : QuackAttribute :=
  { label := some "", name := some "N", value := some "V", is_visible := none }

/-- Character info whose only attribute is `attrEmptyLabel`. -/
def infoC6 : QuackCharacterInfo :=
  { emptyInfo with char_list := some [{ emptyCharItem with attrs := some [attrEmptyLabel] }] }

/-- Character info whose upstream tags are `["TestTag"]`. -/
def infoC5 : QuackCharacterInfo :=
  { emptyInfo with extra := [("tags", .arr [.str "TestTag"])] }

end Arcaferry.Quack

namespace Arcaferry.Server

open Arcaferry Arcaferry.Quack

/-! ## src/src-tauri/src/server.rs — the hidden-settings merge (C7) and the
preview intro truncation (C9) -/
/-- `build_value_map` (server.rs lines 224–240): non-empty trimmed sidecar
values keyed by trimmed label (insert, overwrites) and additionally by
trimmed name (`or_insert`, loses to any existing binding). -/
def build_value_map (extracted : List QuackAttribute) : List (String × String) :=
  extracted.foldl
    (fun m ext =>
      let value := rustTrim (ext.value.getD "")
      if value = "" then m
      else
        let m := match ext.label with
          | some s => if rustTrim s ≠ "" then mapInsert m (rustTrim s) value else m
          | none => m
        match ext.name with
        | some s => if rustTrim s ≠ "" then mapOrInsert m (rustTrim s) value else m
        | none => m) []

/-- `apply_to_vec` (server.rs lines 242–269): patch each typed attribute
that is hidden (`is_visible == Some(false)`) with an empty-or-whitespace
value, looking the replacement up by trimmed label, or by trimmed name when
the label is empty; count the assignments. -/
def apply_to_vec (attrs : List QuackAttribute) (values : List (String × String)) :
    List QuackAttribute × Nat :=
  match attrs with
  | [] => ([], 0)
  | t :: rest =>
    let (rest', n) := apply_to_vec rest values
    if t.is_visible ≠ some false then (t :: rest', n)
    else if rustTrim (t.value.getD "") ≠ "" then (t :: rest', n)
    else
      let label := rustTrim (t.label.getD "")
      let name := rustTrim (t.name.getD "")
      let found := if label ≠ "" then mapLookup values label
        else if name ≠ "" then mapLookup values name
        else none
      match found with
      | some v => ({ t with value := some v } :: rest', n + 1)
      | none => (t :: rest', n)

/-- The per-item body of `apply_to_value_array` (server.rs lines 277–320):
only objects with `isVisible == false` and an empty-or-whitespace string
`value` are patched, by `obj.insert("value", …)`. -/
def patchJsonItem (values : List (String × String)) (item : Json) : Json × Nat :=
  match item with
  | .obj fields =>
    if ((mapLookup fields "isVisible").bind Json.asBool) ≠ some false then (item, 0)
    else if rustTrim (((mapLookup fields "value").bind Json.asStr).getD "") ≠ "" then
      (item, 0)
    else
      let label := rustTrim (((mapLookup fields "label").bind Json.asStr).getD "")
      let name := rustTrim (((mapLookup fields "name").bind Json.asStr).getD "")
      let found := if label ≠ "" then mapLookup values label
        else if name ≠ "" then mapLookup values name
        else none
      match found with
      | some v => (.obj (mapInsert fields "value" (.str v)), 1)
      | none => (item, 0)
  | _ => (item, 0)

/-- `apply_to_value_array` (server.rs lines 271–323): a non-array JSON value
is left alone with count 0. -/
def apply_to_value_array (attrs : Json) (values : List (String × String)) :
    Json × Nat :=
  match attrs.asArr with
  | none => (attrs, 0)
  | some arr =>
    let patched := arr.map (patchJsonItem values)
    (.arr (patched.map Prod.fst), (patched.map Prod.snd).sum)

/-- `apply_hidden_settings` (server.rs lines 220–353): build the value map,
return 0 untouched when it is empty, else patch the top-level raw
`custom_attrs` array and `char_list[0]`'s three attribute sequences,
returning the total number of assignments. -/
def apply_hidden_settings (info : QuackCharacterInfo) (extracted : List QuackAttribute) :
    QuackCharacterInfo × Nat :=
  let values := build_value_map extracted
  if values.isEmpty then (info, 0)
  else
    let pCustom := match info.custom_attrs with
      | some v =>
        let p := apply_to_value_array v values
        (some p.1, p.2)
      | none => (none, 0)
    let pCharList := match info.char_list with
      | some (firstChar :: restChars) =>
        let pa := match firstChar.attrs with
          | some attrs =>
            let p := apply_to_vec attrs values
            (some p.1, p.2)
          | none => (none, 0)
        let pb := match firstChar.advise_attrs with
          | some attrs =>
            let p := apply_to_vec attrs values
            (some p.1, p.2)
          | none => (none, 0)
        let pc := match firstChar.custom_attrs with
          | some attrs =>
            let p := apply_to_vec attrs values
            (some p.1, p.2)
          | none => (none, 0)
        let firstChar' := { firstChar with
          attrs := pa.1
          advise_attrs := pb.1
          custom_attrs := pc.1 }
        (some (firstChar' :: restChars), pa.2 + pb.2 + pc.2)
      | some [] => (some [], 0)
      | none => (none, 0)
    ({ info with custom_attrs := pCustom.1, char_list := pCharList.1 },
      pCustom.2 + pCharList.2)

/-- The assignment claim C7 describes, per typed attribute: a value is
assigned exactly to entries with `is_visible == false` and an
empty-or-whitespace value, found by trimmed label or — when the label is
empty — by trimmed name. -/
def hiddenEmptyLookup (values : List (String × String)) (t : QuackAttribute) :
    Option String :=
  if t.is_visible = some false ∧ rustTrim (t.value.getD "") = "" then
    if rustTrim (t.label.getD "") ≠ "" then mapLookup values (rustTrim (t.label.getD ""))
    else if rustTrim (t.name.getD "") ≠ "" then
      mapLookup values (rustTrim (t.name.getD ""))
    else none
  else none

/-! ### The C9 intro truncation, at byte level

`extract_preview_from_quack` (server.rs lines 452–463) computes
`intro.or(description)` and then truncates with
`if s.len() > 200 { format!("{}...", &s[..197]) } else { s }` — `s.len()`
is the *byte* length and `&s[..197]` *panics* when byte index 197 is not a
character boundary.  Strings are therefore modelled as UTF-8 byte lists
here and `none` models the panic. -/
/-- Rust `str::is_char_boundary` on a valid-UTF-8 byte list: index 0 and
the end-of-string index are boundaries, otherwise the byte at the index
must not be a continuation byte (`0x80..0xC0`). -/
def isCharBoundary (s : List Nat) (i : Nat) : Bool :=
  if i = 0 then true
  else match s.get? i with
    | some b => decide (b < 0x80 ∨ 0xC0 ≤ b)
    | none => decide (i = s.length)

/-- The truncation closure inside `extract_preview_from_quack`: `[46,46,46]`
is `"..."`; `none` is the slice panic. -/
def truncate_intro (s : List Nat) : Option (List Nat) :=
  if s.length > 200 then
    if isCharBoundary s 197 then some (s.take 197 ++ [46, 46, 46]) else none
  else some s

/-- The whole intro computation of `extract_preview_from_quack`:
`info.intro.clone().or_else(|| info.description.clone()).map(truncate).unwrap_or_default()`,
with the panic propagating out of `map`. -/
def preview_intro (intro description : Option (List Nat)) : Option (List Nat) :=
  match intro.or description with
  | some s => truncate_intro s
  | none => some []

/-- UTF-8 bytes of the 201-byte string of 67 copies of `"你"`
(`E4 BD A0`). -/
def introC9 : List Nat := (List.replicate 67 [0xE4, 0xBD, 0xA0]).flatten

/-! ## Concrete inputs and theorems for C7 and C9 -/
/-- A hidden typed attribute with label `X` and empty value. -/
def hiddenAttrX : QuackAttribute :=
  { label := some "X", name := none, value := some "", is_visible := some false }

/-- The same hidden empty attribute as a raw JSON object, with an unknown
sibling key `"note"`. -/
def hiddenJsonX : Json :=
  .obj [("label", .str "X"), ("isVisible", .bool false), ("value", .str ""),
    ("note", .str "keep")]

/-- Character info carrying the hidden empty attribute at all four
locations: the top-level raw `custom_attrs` array and `char_list[0]`'s
`attrs`, `advise_attrs` and `custom_attrs`. -/
def infoC7 : QuackCharacterInfo :=
  { emptyInfo with
    custom_attrs := some (.arr [hiddenJsonX])
    char_list := some [{ emptyCharItem with
      attrs := some [hiddenAttrX]
      advise_attrs := some [hiddenAttrX]
      custom_attrs := some [hiddenAttrX] }] }

/-- The sidecar output `[{label: "X", value: "V"}]`. -/
def extractedC7 : List QuackAttribute :=
  [{ label := some "X", name := none, value := some "V", is_visible := none }]

end Arcaferry.Server

namespace Arcaferry.Cookies

open Arcaferry

/-! ## src/src-tauri/src/cookies.rs — the cookie jar parser (C10)

Strings are Lean `String`s inspected character-wise; `str::starts_with` is
prefix-of on the character lists; `serde_json::from_str::<Vec<Value>>` is an
arbitrary parameter `jsonParse` (`.error` = JSON parse failure), so every
theorem holds for any JSON parser. -/
/-- `Cookie` (cookies.rs lines 7–19). -/
structure Cookie where
  name : String
  value : String
  domain : Option String
  path : Option String
  http_only : Bool
  secure : Bool
deriving DecidableEq, Repr

/-- The jar's `HashMap<String, Cookie>` as an association list with
overwrite-on-insert. -/
abbrev CookieJar := List (String × Cookie)

/-- The error constructor of `ArcaferryError` that `CookieJar::parse` can
produce. -/
inductive CookieError where
  | invalidJson (msg : String)
deriving DecidableEq, Repr

/-- `CookieJar::insert` (cookies.rs lines 181–183): keyed by cookie name,
replaces. -/
def jarInsert (jar : CookieJar) (c : Cookie) : CookieJar :=
  mapInsert jar c.name c

/-- `str::starts_with(&str)` at character level. -/
def strStartsWith (s pre : String) : Bool :=
  pre.toList.isPrefixOf s.toList

/-- Split a string at its first occurrence of `sep`
(Rust `s.find(sep)` plus the two slices; `sep` is ASCII here so byte and
character splits agree). -/
def splitFirstChar (sep : Char) (s : String) : Option (String × String) :=
  let rec go : List Char → Option (List Char × List Char)
    | [] => none
    | c :: rest =>
      if c = sep then some ([], rest)
      else (go rest).map (fun p => (c :: p.1, p.2))
  (go s.toList).map (fun p => (⟨p.1⟩, ⟨p.2⟩))

/-- Strip one trailing `'\r'` (part of Rust `str::lines`). -/
def stripCR (l : String) : String :=
  match l.toList.getLast? with
  | some '\r' => ⟨l.toList.dropLast⟩
  | _ => l

/-- Rust `str::lines`: split on `'\n'`, drop the final empty piece (present
exactly when the input is empty or ends in `'\n'`), strip one trailing
`'\r'` per line. -/
def rustLines (s : String) : List String :=
  let pieces := rustSplit '\n' s
  let pieces := if pieces.getLast? = some "" then pieces.dropLast else pieces
  pieces.map stripCR

/-- The loop body of `parse_json` (cookies.rs lines 61–89): only objects
with a non-empty string `name` contribute. -/
def parseJsonCookies (vals : List Json) : CookieJar :=
  vals.foldl
    (fun jar cookieVal =>
      match cookieVal with
      | .obj obj =>
        let name := ((mapLookup obj "name").bind Json.asStr).getD ""
        let value := ((mapLookup obj "value").bind Json.asStr).getD ""
        if name ≠ "" then
          jarInsert jar
            { name := name
              value := value
              domain := (mapLookup obj "domain").bind Json.asStr
              path := (mapLookup obj "path").bind Json.asStr
              http_only := ((mapLookup obj "httpOnly").bind Json.asBool).getD false
              secure := ((mapLookup obj "secure").bind Json.asBool).getD false }
        else jar
      | _ => jar) []

/-- `parse_json` (cookies.rs lines 55–92). -/
def parse_json (jsonParse : String → Except String (List Json)) (input : String) :
    Except CookieError CookieJar :=
  match jsonParse input with
  | .error e => .error (.invalidJson e)
  | .ok vals => .ok (parseJsonCookies vals)

/-- One line of `parse_netscape` (cookies.rs lines 99–126): trim; skip
empties and `#` comments; need at least 7 tab-separated fields
(`domain, flag, path, secure, expiry, name, value` at indices
0, 2, 3, 5, 6); skip empty names. -/
def netscapeLine (jar : CookieJar) (rawLine : String) : CookieJar :=
  let line := rustTrim rawLine
  if line = "" then jar
  else if strStartsWith line "#" then jar
  else
    let parts := rustSplit '\t' line
    if parts.length ≥ 7 then
      let name := parts.getD 5 ""
      if name ≠ "" then
        jarInsert jar
          { name := name
            value := parts.getD 6 ""
            domain := some (parts.getD 0 "")
            path := some (parts.getD 2 "")
            http_only := false
            secure := asciiLower (parts.getD 3 "") = "true" }
      else jar
    else jar

/-- `parse_netscape` (cookies.rs lines 96–130): always `Ok`. -/
def parse_netscape (input : String) : Except CookieError CookieJar :=
  .ok ((rustLines input).foldl netscapeLine [])

/-- One `';'`-separated pair of `parse_header_string`
(cookies.rs lines 143–161): trim, split at the first `'='`, skip pairs
without `'='` and pairs whose trimmed name is empty. -/
def headerPair (jar : CookieJar) (rawPair : String) : CookieJar :=
  let pair := rustTrim rawPair
  match splitFirstChar '=' pair with
  | some (before, after) =>
    let name := rustTrim before
    if name ≠ "" then
      jarInsert jar
        { name := name
          value := rustTrim after
          domain := none
          path := none
          http_only := false
          secure := false }
    else jar
  | none => jar

/-- `parse_header_string` (cookies.rs lines 133–164): strip an optional
case-insensitive `Cookie:` prefix (7 ASCII characters), then fold the
`';'`-separated pairs; always `Ok`. -/
def parse_header_string (input : String) : Except CookieError CookieJar :=
  let cookieStr := if strStartsWith (asciiLower input) "cookie:" then
      rustTrim ⟨input.toList.drop 7⟩
    else input
  .ok ((rustSplit ';' cookieStr).foldl headerPair [])

/-- `CookieJar::parse` (cookies.rs lines 35–52): empty-after-trim → empty
jar; leading `'['` → JSON array form; a tab anywhere or a leading `'#'` →
Netscape form; otherwise header form. -/
def CookieJar.parse (jsonParse : String → Except String (List Json)) (input : String) :
    Except CookieError CookieJar :=
  let trimmed := rustTrim input
  if trimmed = "" then .ok []
  else if strStartsWith trimmed "[" then parse_json jsonParse trimmed
  else if trimmed.toList.contains '\t' || strStartsWith trimmed "#" then
    parse_netscape trimmed
  else parse_header_string trimmed

end Arcaferry.Cookies

set_option maxRecDepth 8000

namespace Arcaferry

theorem mapLookup_mapInsert {α : Type} [DecidableEq α] {β : Type}
    (m : List (α × β)) (k k' : α) (v : β) :
    mapLookup (mapInsert m k v) k' = if k = k' then some v else mapLookup m k' := by
  induction m with
  | nil => simp [mapInsert, mapLookup]
  | cons hd tl ih =>
    obtain ⟨k₀, v₀⟩ := hd
    by_cases h₀ : k₀ = k
    · subst h₀
      simp only [mapInsert, if_pos rfl, mapLookup]
      by_cases h₁ : k₀ = k'
      · subst h₁; simp [mapLookup]
      · simp [mapLookup, h₁]
    · simp only [mapInsert, if_neg h₀, mapLookup]
      by_cases h₁ : k₀ = k'
      · subst h₁
        have : ¬ k = k₀ := fun h => h₀ h.symm
        simp [this, ih]
      · simp [h₁, ih]

end Arcaferry

namespace Arcaferry.Png

theorem exists_cons8 (l : List Nat) (h : 8 ≤ l.length) :
    ∃ b0 b1 b2 b3 t0 t1 t2 t3 rest,
      l = b0 :: b1 :: b2 :: b3 :: t0 :: t1 :: t2 :: t3 :: rest := by
  match l with
  | b0 :: b1 :: b2 :: b3 :: t0 :: t1 :: t2 :: t3 :: rest =>
    exact ⟨b0, b1, b2, b3, t0, t1, t2, t3, rest, rfl⟩
  | [] | [_] | [_, _] | [_, _, _] | [_, _, _, _] | [_, _, _, _, _]
  | [_, _, _, _, _, _] | [_, _, _, _, _, _, _] => simp at h

theorem readChunksLoop_short (fuel : Nat) (rest : List Nat) (h : rest.length < 8) :
    readChunksLoop fuel rest = .ok [] := by
  cases fuel with
  | zero => rfl
  | succ fuel =>
    match rest with
    | [] | [_] | [_, _] | [_, _, _] | [_, _, _, _] | [_, _, _, _, _]
    | [_, _, _, _, _, _] | [_, _, _, _, _, _, _] => rfl
    | _ :: _ :: _ :: _ :: _ :: _ :: _ :: _ :: _ => simp only [List.length_cons] at h; omega

theorem readChunksLoop_cons (fuel b0 b1 b2 b3 t0 t1 t2 t3 : Nat) (rest' : List Nat) :
    readChunksLoop (fuel + 1) (b0 :: b1 :: b2 :: b3 :: t0 :: t1 :: t2 :: t3 :: rest') =
      (if rest'.length < be32 b0 b1 b2 b3 + 4 then
        .error (.pngChunkError "Truncated chunk")
      else if [t0, t1, t2, t3] = iendBytes then
        .ok [⟨[t0, t1, t2, t3], rest'.take (be32 b0 b1 b2 b3)⟩]
      else
        match readChunksLoop fuel (rest'.drop (be32 b0 b1 b2 b3 + 4)) with
        | .error e => .error e
        | .ok cs => .ok (⟨[t0, t1, t2, t3], rest'.take (be32 b0 b1 b2 b3)⟩ :: cs)) := rfl

theorem be32_lt (b0 b1 b2 b3 : Nat) (h0 : b0 < 256) (h1 : b1 < 256) (h2 : b2 < 256)
    (h3 : b3 < 256) : be32 b0 b1 b2 b3 < 2 ^ 32 := by
  simp only [be32]
  omega

/-- Every successful run of the chunk loop yields well-formed chunks with
`IEND` only in final position. -/
theorem readChunksLoop_wf (fuel : Nat) (rest : List Nat) (cs : List PngChunk)
    (hok : readChunksLoop fuel rest = .ok cs) (hbytes : ∀ b ∈ rest, b < 256) :
    (∀ c ∈ cs, chunkWf c) ∧ iendOnlyLast cs := by
  induction fuel generalizing rest cs with
  | zero =>
    simp only [readChunksLoop, Except.ok.injEq] at hok
    subst hok
    exact ⟨by simp, trivial⟩
  | succ fuel ih =>
    by_cases hlen : rest.length < 8
    · rw [readChunksLoop_short _ _ hlen] at hok
      cases hok
      exact ⟨by simp, trivial⟩
    · obtain ⟨b0, b1, b2, b3, t0, t1, t2, t3, rest', rfl⟩ :=
        exists_cons8 rest (by omega)
      rw [readChunksLoop_cons] at hok
      have hb : b0 < 256 ∧ b1 < 256 ∧ b2 < 256 ∧ b3 < 256 ∧ t0 < 256 ∧ t1 < 256 ∧
          t2 < 256 ∧ t3 < 256 := by
        refine ⟨hbytes _ ?_, hbytes _ ?_, hbytes _ ?_, hbytes _ ?_, hbytes _ ?_,
          hbytes _ ?_, hbytes _ ?_, hbytes _ ?_⟩ <;> simp
      have hrest' : ∀ b ∈ rest', b < 256 := fun b hb' => hbytes b (by simp [hb'])
      by_cases htrunc : rest'.length < be32 b0 b1 b2 b3 + 4
      · simp [htrunc] at hok
      · rw [if_neg htrunc] at hok
        have hcwf : chunkWf ⟨[t0, t1, t2, t3], rest'.take (be32 b0 b1 b2 b3)⟩ := by
          refine ⟨rfl, ?_, ?_, ?_⟩
          · intro b hb'
            simp only [List.mem_cons, List.not_mem_nil, or_false] at hb'
            rcases hb' with rfl | rfl | rfl | rfl
            · exact hb.2.2.2.2.1
            · exact hb.2.2.2.2.2.1
            · exact hb.2.2.2.2.2.2.1
            · exact hb.2.2.2.2.2.2.2
          · simp only [List.length_take]
            have := be32_lt b0 b1 b2 b3 hb.1 hb.2.1 hb.2.2.1 hb.2.2.2.1
            omega
          · intro b hb'
            exact hrest' b (List.take_subset _ _ hb')
        by_cases hiend : [t0, t1, t2, t3] = iendBytes
        · rw [if_pos hiend] at hok
          simp only [Except.ok.injEq] at hok
          subst hok
          refine ⟨?_, Or.inl rfl, trivial⟩
          intro c hc
          simp only [List.mem_singleton] at hc
          subst hc
          exact hcwf
        · rw [if_neg hiend] at hok
          cases hrec : readChunksLoop fuel (rest'.drop (be32 b0 b1 b2 b3 + 4)) with
          | error e => rw [hrec] at hok; cases hok
          | ok cs' =>
            rw [hrec] at hok
            simp only [Except.ok.injEq] at hok
            subst hok
            have hdrop : ∀ b ∈ rest'.drop (be32 b0 b1 b2 b3 + 4), b < 256 :=
              fun b hb' => hrest' b (List.drop_subset _ _ hb')
            obtain ⟨ihwf, ihiend⟩ := ih _ _ hrec hdrop
            refine ⟨?_, ?_, ihiend⟩
            · intro c hc
              rcases List.mem_cons.mp hc with rfl | hc'
              · exact hcwf
              · exact ihwf c hc'
            · exact Or.inr (fun h => hiend h)

/-- Successful parses never have more chunks than input bytes. -/
theorem readChunksLoop_length_le (fuel : Nat) (rest : List Nat) (cs : List PngChunk)
    (hok : readChunksLoop fuel rest = .ok cs) : cs.length ≤ rest.length := by
  induction fuel generalizing rest cs with
  | zero =>
    simp only [readChunksLoop, Except.ok.injEq] at hok
    subst hok; simp
  | succ fuel ih =>
    by_cases hlen : rest.length < 8
    · rw [readChunksLoop_short _ _ hlen] at hok
      cases hok; simp
    · obtain ⟨b0, b1, b2, b3, t0, t1, t2, t3, rest', rfl⟩ :=
        exists_cons8 rest (by omega)
      rw [readChunksLoop_cons] at hok
      by_cases htrunc : rest'.length < be32 b0 b1 b2 b3 + 4
      · simp [htrunc] at hok
      · rw [if_neg htrunc] at hok
        by_cases hiend : [t0, t1, t2, t3] = iendBytes
        · rw [if_pos hiend] at hok
          simp only [Except.ok.injEq] at hok
          subst hok; simp
        · rw [if_neg hiend] at hok
          cases hrec : readChunksLoop fuel (rest'.drop (be32 b0 b1 b2 b3 + 4)) with
          | error e => rw [hrec] at hok; cases hok
          | ok cs' =>
            rw [hrec] at hok
            simp only [Except.ok.injEq] at hok
            subst hok
            have := ih _ _ hrec
            simp only [List.length_cons, List.length_drop] at this ⊢
            omega

theorem exists_len4 {α : Type} (l : List α) (h : l.length = 4) :
    ∃ a b c d, l = [a, b, c, d] := by
  match l with
  | [a, b, c, d] => exact ⟨a, b, c, d, rfl⟩
  | [] | [_] | [_, _] | [_, _, _] => simp at h
  | _ :: _ :: _ :: _ :: _ :: _ => simp only [List.length_cons] at h; omega

theorem be32_u32be (n : Nat) (h : n < 2 ^ 32) :
    be32 (n / 2 ^ 24 % 256) (n / 2 ^ 16 % 256) (n / 2 ^ 8 % 256) (n % 256) = n := by
  simp only [be32]
  omega

/-- Parsing the serialization of a well-formed chunk list returns exactly
that list. -/
theorem readChunksLoop_serialize (cs : List PngChunk) (hwf : ∀ c ∈ cs, chunkWf c)
    (hiend : iendOnlyLast cs) :
    ∀ fuel, (cs.flatMap serializeChunk).length < fuel →
      readChunksLoop fuel (cs.flatMap serializeChunk) = .ok cs := by
  induction cs with
  | nil => intro fuel _; exact readChunksLoop_short _ _ (by simp)
  | cons c cs' ih =>
    intro fuel hfuel
    obtain ⟨hty4, _, hdlen, _⟩ := hwf c (List.mem_cons_self _ _)
    obtain ⟨t0, t1, t2, t3, hty⟩ := exists_len4 c.chunk_type hty4
    have hL : c.data.length % 2 ^ 32 = c.data.length := Nat.mod_eq_of_lt hdlen
    have hstream : (c :: cs').flatMap serializeChunk =
        (c.data.length / 2 ^ 24 % 256) :: (c.data.length / 2 ^ 16 % 256) ::
        (c.data.length / 2 ^ 8 % 256) :: (c.data.length % 256) ::
        t0 :: t1 :: t2 :: t3 ::
        (c.data ++ (u32be (calculate_crc c.chunk_type c.data) ++
          cs'.flatMap serializeChunk)) := by
      simp only [List.flatMap_cons, serializeChunk, u32be, hty, List.append_assoc,
        List.cons_append, List.nil_append, List.cons.injEq, and_true, true_and]
      omega
    rw [hstream] at hfuel ⊢
    cases fuel with
    | zero => simp at hfuel
    | succ fuel =>
      rw [readChunksLoop_cons,
        be32_u32be c.data.length hdlen]
      have hnotrunc : ¬ ((c.data ++ (u32be (calculate_crc c.chunk_type c.data) ++
          cs'.flatMap serializeChunk)).length < c.data.length + 4) := by
        simp [u32be]
      rw [if_neg hnotrunc]
      have htake : (c.data ++ (u32be (calculate_crc c.chunk_type c.data) ++
          cs'.flatMap serializeChunk)).take c.data.length = c.data := by
        simp
      have hdrop : (c.data ++ (u32be (calculate_crc c.chunk_type c.data) ++
          cs'.flatMap serializeChunk)).drop (c.data.length + 4) =
          cs'.flatMap serializeChunk := by
        rw [show c.data.length + 4 = c.data.length + 4 from rfl]
        rw [List.drop_append]
        simp [u32be]
      have hchunk : (⟨[t0, t1, t2, t3], (c.data ++ (u32be (calculate_crc c.chunk_type
          c.data) ++ cs'.flatMap serializeChunk)).take c.data.length⟩ : PngChunk) = c := by
        rw [htake, ← hty]
      by_cases hiendc : [t0, t1, t2, t3] = iendBytes
      · rw [if_pos hiendc]
        have hnil : cs' = [] := by
          rcases hiend.1 with h | h
          · exact h
          · exact absurd (hty.trans hiendc) h
        rw [hchunk, hnil]
      · rw [if_neg hiendc, hdrop]
        have hrec : readChunksLoop fuel (cs'.flatMap serializeChunk) = .ok cs' := by
          apply ih (fun c hc => hwf c (List.mem_cons_of_mem _ hc)) hiend.2
          simp only [List.length_cons, List.length_append] at hfuel
          omega
        rw [hchunk, hrec]

/-- `read_chunks ∘ build_png` is the identity on well-formed chunk lists. -/
theorem read_chunks_build_png (cs : List PngChunk) (hwf : ∀ c ∈ cs, chunkWf c)
    (hiend : iendOnlyLast cs) : read_chunks (build_png cs) = .ok cs := by
  have hsig : (build_png cs).take 8 = pngSignature := by
    simp [build_png, pngSignature]
  have hlen : ¬ ((build_png cs).length < 8) := by
    simp [build_png, pngSignature]
  rw [read_chunks, if_neg (by simp [hsig, hlen])]
  have hdrop : (build_png cs).drop 8 = cs.flatMap serializeChunk := by
    simp [build_png, pngSignature]
  rw [hdrop]
  apply readChunksLoop_serialize cs hwf hiend
  simp only [build_png, pngSignature, List.length_append, List.length_cons,
    List.length_nil]
  omega

/-- The chunk loop never looks past the first `IEND` chunk: when a parse
succeeds and ends in `IEND`, appending arbitrary bytes to the input does not
change the result. -/
theorem readChunksLoop_append (fuel : Nat) (rest g : List Nat) (cs : List PngChunk)
    (hok : readChunksLoop fuel rest = .ok cs) (hlast : lastIsIend cs) :
    ∀ fuel', (rest ++ g).length < fuel' → readChunksLoop fuel' (rest ++ g) = .ok cs := by
  induction fuel generalizing rest cs with
  | zero =>
    simp only [readChunksLoop, Except.ok.injEq] at hok
    subst hok
    simp [lastIsIend] at hlast
  | succ fuel ih =>
    intro fuel' hfuel'
    by_cases hlen : rest.length < 8
    · rw [readChunksLoop_short _ _ hlen] at hok
      cases hok
      simp [lastIsIend] at hlast
    · obtain ⟨b0, b1, b2, b3, t0, t1, t2, t3, rest', rfl⟩ :=
        exists_cons8 rest (by omega)
      rw [readChunksLoop_cons] at hok
      by_cases htrunc : rest'.length < be32 b0 b1 b2 b3 + 4
      · simp [htrunc] at hok
      · rw [if_neg htrunc] at hok
        have hshape : (b0 :: b1 :: b2 :: b3 :: t0 :: t1 :: t2 :: t3 :: rest') ++ g =
            b0 :: b1 :: b2 :: b3 :: t0 :: t1 :: t2 :: t3 :: (rest' ++ g) := by
          simp
        rw [hshape] at hfuel' ⊢
        cases fuel' with
        | zero => simp at hfuel'
        | succ fuel' =>
          rw [readChunksLoop_cons]
          have htrunc' : ¬ ((rest' ++ g).length < be32 b0 b1 b2 b3 + 4) := by
            simp only [List.length_append]
            omega
          rw [if_neg htrunc']
          have htake : (rest' ++ g).take (be32 b0 b1 b2 b3) =
              rest'.take (be32 b0 b1 b2 b3) :=
            List.take_append_of_le_length (by omega)
          by_cases hiendc : [t0, t1, t2, t3] = iendBytes
          · rw [if_pos hiendc] at hok ⊢
            rw [htake]
            exact hok
          · rw [if_neg hiendc] at hok ⊢
            cases hrec : readChunksLoop fuel (rest'.drop (be32 b0 b1 b2 b3 + 4)) with
            | error e => rw [hrec] at hok; cases hok
            | ok cs₂ =>
              rw [hrec] at hok
              simp only [Except.ok.injEq] at hok
              subst hok
              have hcs₂ : cs₂ ≠ [] := by
                intro hnil
                subst hnil
                simp [lastIsIend, iendBytes] at hlast
                exact hiendc (by simp [iendBytes, hlast])
              obtain ⟨d, ds, rfl⟩ := List.exists_cons_of_ne_nil hcs₂
              have hlast₂ : lastIsIend (d :: ds) := by
                simpa [lastIsIend, List.getLast?_cons_cons] using hlast
              have hdropg : (rest' ++ g).drop (be32 b0 b1 b2 b3 + 4) =
                  rest'.drop (be32 b0 b1 b2 b3 + 4) ++ g :=
                List.drop_append_of_le_length (by omega)
              rw [hdropg]
              rw [ih _ _ hrec hlast₂ fuel' (by
                simp only [List.length_append, List.length_drop, List.length_cons]
                  at hfuel' ⊢
                omega)]
              rw [htake]

/-- The chunk loop only ever fails with the `"Truncated chunk"` message. -/
theorem readChunksLoop_error (fuel : Nat) (rest : List Nat) (e : PngError)
    (herr : readChunksLoop fuel rest = .error e) :
    e = .pngChunkError "Truncated chunk" := by
  induction fuel generalizing rest with
  | zero => simp only [readChunksLoop] at herr; cases herr
  | succ fuel ih =>
    by_cases hlen : rest.length < 8
    · rw [readChunksLoop_short _ _ hlen] at herr; cases herr
    · obtain ⟨b0, b1, b2, b3, t0, t1, t2, t3, rest', rfl⟩ :=
        exists_cons8 rest (by omega)
      rw [readChunksLoop_cons] at herr
      by_cases htrunc : rest'.length < be32 b0 b1 b2 b3 + 4
      · rw [if_pos htrunc] at herr
        cases herr
        rfl
      · rw [if_neg htrunc] at herr
        by_cases hiendc : [t0, t1, t2, t3] = iendBytes
        · rw [if_pos hiendc] at herr; cases herr
        · rw [if_neg hiendc] at herr
          cases hrec : readChunksLoop fuel (rest'.drop (be32 b0 b1 b2 b3 + 4)) with
          | error e' =>
            rw [hrec] at herr
            cases herr
            exact ih _ hrec
          | ok cs => rw [hrec] at herr; cases herr

/-- `read_chunks` reports `InvalidPngSignature` exactly on inputs that do not
begin with the 8-byte PNG signature. -/
theorem read_chunks_invalidSig_iff (p : List Nat) :
    read_chunks p = .error .invalidPngSignature ↔ (p.length < 8 ∨ p.take 8 ≠ pngSignature) := by
  constructor
  · intro h
    by_contra hcond
    rw [read_chunks, if_neg hcond] at h
    exact PngError.noConfusion (readChunksLoop_error _ _ _ h)
  · intro h
    rw [read_chunks, if_pos h]

/-- Any `PngChunkError` from `read_chunks` carries the message
`"Truncated chunk"`. -/
theorem read_chunks_error_msg (p : List Nat) (e : String)
    (herr : read_chunks p = .error (.pngChunkError e)) : e = "Truncated chunk" := by
  rw [read_chunks] at herr
  by_cases hcond : p.length < 8 ∨ p.take 8 ≠ pngSignature
  · rw [if_pos hcond] at herr; cases herr
  · rw [if_neg hcond] at herr
    have := readChunksLoop_error _ _ _ herr
    cases this
    rfl

/-! ### How `inject_text_chunk` and `remove_text_chunk` rearrange chunks -/
theorem injectReplaceLoop_length (nc : PngChunk) (kw : List Nat) (rep : Bool)
    (cs : List PngChunk) : (injectReplaceLoop nc kw rep cs).1.length = cs.length := by
  induction cs with
  | nil => rfl
  | cons c rest ih =>
    simp only [injectReplaceLoop]
    split <;> simp [ih]

theorem injectReplaceLoop_mem (nc : PngChunk) (kw : List Nat) (rep : Bool)
    (cs : List PngChunk) (x : PngChunk) (hx : x ∈ (injectReplaceLoop nc kw rep cs).1) :
    x = nc ∨ (x ∈ cs ∧
      ¬ (rep = true ∧ x.chunk_type = tEXtBytes ∧
          (decode_text_chunk x.data).map Prod.fst = some kw)) := by
  induction cs with
  | nil => simp [injectReplaceLoop] at hx
  | cons c rest ih =>
    simp only [injectReplaceLoop] at hx
    split at hx
    · rcases List.mem_cons.mp hx with rfl | hx'
      · exact Or.inl rfl
      · rcases ih hx' with h | ⟨hmem, hcond⟩
        · exact Or.inl h
        · exact Or.inr ⟨List.mem_cons_of_mem _ hmem, hcond⟩
    · rcases List.mem_cons.mp hx with rfl | hx'
      · rename_i hcond
        exact Or.inr ⟨List.mem_cons_self _ _, fun h => hcond ⟨h.1, h.2.1, h.2.2⟩⟩
      · rcases ih hx' with h | ⟨hmem, hcond⟩
        · exact Or.inl h
        · exact Or.inr ⟨List.mem_cons_of_mem _ hmem, hcond⟩

theorem injectReplaceLoop_replaced_mem (nc : PngChunk) (kw : List Nat) (rep : Bool)
    (cs : List PngChunk) (hrep : (injectReplaceLoop nc kw rep cs).2 = true) :
    nc ∈ (injectReplaceLoop nc kw rep cs).1 := by
  induction cs with
  | nil => simp [injectReplaceLoop] at hrep
  | cons c rest ih =>
    simp only [injectReplaceLoop] at hrep ⊢
    split at hrep <;> split
    · exact List.mem_cons_self _ _
    · simp_all
    · simp_all
    · exact List.mem_cons_of_mem _ (ih hrep)

theorem injectReplaceLoop_idat (nc : PngChunk) (kw : List Nat) (rep : Bool)
    (cs : List PngChunk) (hnc : nc.chunk_type = tEXtBytes) :
    idatPayloads (injectReplaceLoop nc kw rep cs).1 = idatPayloads cs := by
  induction cs with
  | nil => rfl
  | cons c rest ih =>
    simp only [injectReplaceLoop]
    split
    · rename_i hcond
      have hct : c.chunk_type = tEXtBytes := hcond.2.1
      have h₁ : ¬ (nc.chunk_type = idatBytes) := by
        rw [hnc]; simp [tEXtBytes, idatBytes]
      have h₂ : ¬ (c.chunk_type = idatBytes) := by
        rw [hct]; simp [tEXtBytes, idatBytes]
      simp only [idatPayloads, List.filter_cons] at ih ⊢
      simp [h₁, h₂, idatPayloads] at ih ⊢
      exact ih
    · simp only [idatPayloads, List.filter_cons] at ih ⊢
      by_cases h : c.chunk_type = idatBytes
      · simp [h, idatPayloads] at ih ⊢
        exact ih
      · simp [h, idatPayloads] at ih ⊢
        exact ih

theorem injectReplaceLoop_iendOnlyLast (nc : PngChunk) (kw : List Nat) (rep : Bool)
    (cs : List PngChunk) (hnc : nc.chunk_type = tEXtBytes) (hiend : iendOnlyLast cs) :
    iendOnlyLast (injectReplaceLoop nc kw rep cs).1 := by
  induction cs with
  | nil => exact trivial
  | cons c rest ih =>
    obtain ⟨hhead, htail⟩ := hiend
    have htails := ih htail
    have hlen := injectReplaceLoop_length nc kw rep rest
    simp only [injectReplaceLoop]
    split
    · refine ⟨?_, htails⟩
      rcases hhead with hnil | hne
      · subst hnil
        left
        simpa using hlen
      · right
        rw [hnc]
        simp [tEXtBytes, iendBytes]
    · refine ⟨?_, htails⟩
      rcases hhead with hnil | hne
      · subst hnil
        left
        simpa using hlen
      · exact Or.inr hne

theorem insertBeforeIend_mem (nc : PngChunk) (cs : List PngChunk) (x : PngChunk)
    (hx : x ∈ insertBeforeIend nc cs) : x = nc ∨ x ∈ cs := by
  induction cs with
  | nil => simpa [insertBeforeIend] using hx
  | cons c rest ih =>
    simp only [insertBeforeIend] at hx
    split at hx
    · rcases List.mem_cons.mp hx with rfl | hx'
      · exact Or.inl rfl
      · exact Or.inr hx'
    · rcases List.mem_cons.mp hx with rfl | hx'
      · exact Or.inr (List.mem_cons_self _ _)
      · rcases ih hx' with h | h
        · exact Or.inl h
        · exact Or.inr (List.mem_cons_of_mem _ h)

theorem insertBeforeIend_self_mem (nc : PngChunk) (cs : List PngChunk) :
    nc ∈ insertBeforeIend nc cs := by
  induction cs with
  | nil => simp [insertBeforeIend]
  | cons c rest ih =>
    simp only [insertBeforeIend]
    split
    · exact List.mem_cons_self _ _
    · exact List.mem_cons_of_mem _ ih

theorem insertBeforeIend_idat (nc : PngChunk) (cs : List PngChunk)
    (hnc : ¬ nc.chunk_type = idatBytes) :
    idatPayloads (insertBeforeIend nc cs) = idatPayloads cs := by
  induction cs with
  | nil => simp [insertBeforeIend, idatPayloads, hnc]
  | cons c rest ih =>
    simp only [insertBeforeIend]
    split
    · simp [idatPayloads, List.filter_cons, hnc]
    · simp only [idatPayloads, List.filter_cons] at ih ⊢
      by_cases h : c.chunk_type = idatBytes
      · simp [h, idatPayloads] at ih ⊢
        exact ih
      · simp [h, idatPayloads] at ih ⊢
        exact ih

theorem insertBeforeIend_iendOnlyLast (nc : PngChunk) (cs : List PngChunk)
    (hnc : ¬ nc.chunk_type = iendBytes) (hiend : iendOnlyLast cs) :
    iendOnlyLast (insertBeforeIend nc cs) := by
  induction cs with
  | nil => exact ⟨Or.inl rfl, trivial⟩
  | cons c rest ih =>
    obtain ⟨hhead, htail⟩ := hiend
    simp only [insertBeforeIend]
    split
    · exact ⟨Or.inr hnc, hhead, htail⟩
    · rename_i hcne
      refine ⟨Or.inr hcne, ih htail⟩

theorem filter_idatPayloads (keep : PngChunk → Bool) (cs : List PngChunk)
    (hkeep : ∀ c ∈ cs, c.chunk_type = idatBytes → keep c = true) :
    idatPayloads (cs.filter keep) = idatPayloads cs := by
  induction cs with
  | nil => rfl
  | cons c rest ih =>
    have ih' := ih (fun c hc => hkeep c (List.mem_cons_of_mem _ hc))
    simp only [List.filter_cons]
    by_cases hk : keep c = true
    · simp only [hk, if_true, idatPayloads, List.filter_cons] at ih' ⊢
      by_cases h : c.chunk_type = idatBytes
      · simp [h, idatPayloads] at ih' ⊢
        exact ih'
      · simp [h, idatPayloads] at ih' ⊢
        exact ih'
    · have hni : ¬ c.chunk_type = idatBytes := fun h =>
        hk (hkeep c (List.mem_cons_self _ _) h)
      simp only [hk, if_false, idatPayloads, List.filter_cons] at ih' ⊢
      simp [hni, idatPayloads] at ih' ⊢
      exact ih'

theorem filter_iendOnlyLast (keep : PngChunk → Bool) (cs : List PngChunk)
    (hkeep : ∀ c ∈ cs, c.chunk_type = iendBytes → keep c = true)
    (hiend : iendOnlyLast cs) : iendOnlyLast (cs.filter keep) := by
  induction cs with
  | nil => exact trivial
  | cons c rest ih =>
    obtain ⟨hhead, htail⟩ := hiend
    have ih' := ih (fun c hc => hkeep c (List.mem_cons_of_mem _ hc)) htail
    simp only [List.filter_cons]
    by_cases hk : keep c = true
    · simp only [hk, if_true]
      refine ⟨?_, ih'⟩
      rcases hhead with hnil | hne
      · subst hnil
        exact Or.inl rfl
      · exact Or.inr hne
    · simp only [hk, if_false]
      exact ih'

theorem shouldRemove_idat (zlib : List Nat → Option (List Nat)) (kw : List Nat)
    (c : PngChunk) (h : c.chunk_type = idatBytes) : shouldRemove zlib kw c = false := by
  simp [shouldRemove, h, idatBytes, tEXtBytes, iTXtBytes, zTXtBytes]

theorem shouldRemove_iend (zlib : List Nat → Option (List Nat)) (kw : List Nat)
    (c : PngChunk) (h : c.chunk_type = iendBytes) : shouldRemove zlib kw c = false := by
  simp [shouldRemove, h, iendBytes, tEXtBytes, iTXtBytes, zTXtBytes]

theorem b64Char_lt (n : Nat) : b64Char n < 256 := by
  simp only [b64Char]
  split <;> try omega
  split <;> try omega
  split <;> try omega
  split <;> omega

theorem base64Encode_lt (txt : List Nat) : ∀ x ∈ base64Encode txt, x < 256 := by
  match txt with
  | [] => simp [base64Encode]
  | [a] =>
    intro x hx
    simp only [base64Encode, List.mem_cons, List.not_mem_nil, or_false] at hx
    rcases hx with rfl | rfl | rfl | rfl <;> first | exact b64Char_lt _ | omega
  | [a, b] =>
    intro x hx
    simp only [base64Encode, List.mem_cons, List.not_mem_nil, or_false] at hx
    rcases hx with rfl | rfl | rfl | rfl <;> first | exact b64Char_lt _ | omega
  | a :: b :: c :: rest =>
    intro x hx
    simp only [base64Encode, List.mem_cons] at hx
    rcases hx with rfl | rfl | rfl | rfl | hx
    · exact b64Char_lt _
    · exact b64Char_lt _
    · exact b64Char_lt _
    · exact b64Char_lt _
    · exact base64Encode_lt rest x hx

theorem read_chunks_wf (p : List Nat) (cs : List PngChunk)
    (hbytes : ∀ b ∈ p, b < 256) (hok : read_chunks p = .ok cs) :
    (∀ c ∈ cs, chunkWf c) ∧ iendOnlyLast cs := by
  rw [read_chunks] at hok
  by_cases hcond : p.length < 8 ∨ p.take 8 ≠ pngSignature
  · rw [if_pos hcond] at hok; cases hok
  · rw [if_neg hcond] at hok
    exact readChunksLoop_wf _ _ _ hok (fun b hb => hbytes b (List.drop_subset _ _ hb))

theorem injected_chunk_wf (keyword text : List Nat) (hkw : ∀ b ∈ keyword, b < 256)
    (hlen : (build_text_chunk_data keyword text).length < 2 ^ 32) :
    chunkWf ⟨tEXtBytes, build_text_chunk_data keyword text⟩ := by
  refine ⟨rfl, ?_, hlen, ?_⟩
  · show ∀ b ∈ tEXtBytes, b < 256
    decide
  intro b hb
  simp only [build_text_chunk_data, List.mem_append, List.mem_cons] at hb
  rcases hb with h | h | h
  · exact hkw b h
  · omega
  · exact base64Encode_lt text b h

/-- C1: both PNG text-chunk operations leave the sequence of IDAT payloads
untouched.  The hypothesis on `build_text_chunk_data` is the machine-width
side condition of `build_png`'s `data.len() as u32` cast (a fresh `tEXt`
chunk of at least 2³² bytes would be re-framed incorrectly); it is trivially
true for any realistic keyword and text. -/
theorem c1_idat_preserved (p keyword text : List Nat) (replace : Bool)
    (zlib : List Nat → Option (List Nat)) (cs : List PngChunk)
    (hbytes : ∀ b ∈ p, b < 256) (hkw : ∀ b ∈ keyword, b < 256)
    (hok : read_chunks p = .ok cs)
    (hlen : (build_text_chunk_data keyword text).length < 2 ^ 32) :
    (∃ out, inject_text_chunk p keyword text replace = .ok out ∧
        extract_idat_chunks out = extract_idat_chunks p) ∧
    (∃ out, remove_text_chunk zlib p keyword = .ok out ∧
        extract_idat_chunks out = extract_idat_chunks p) := by
  obtain ⟨hwf, hiend⟩ := read_chunks_wf p cs hbytes hok
  have hextractp : extract_idat_chunks p = .ok (idatPayloads cs) := by
    rw [extract_idat_chunks, hok]
  constructor
  · -- inject_text_chunk
    set nc : PngChunk := ⟨tEXtBytes, build_text_chunk_data keyword text⟩ with hncdef
    have hncwf : chunkWf nc := injected_chunk_wf keyword text hkw hlen
    have hnct : nc.chunk_type = tEXtBytes := rfl
    set loopRes := injectReplaceLoop nc keyword replace cs with hloopdef
    set final : List PngChunk :=
      if loopRes.2 then loopRes.1 else insertBeforeIend nc loopRes.1 with hfinaldef
    have hfwf : ∀ c ∈ final, chunkWf c := by
      intro c hc
      rw [hfinaldef] at hc
      split at hc
      · rcases injectReplaceLoop_mem nc keyword replace cs c hc with rfl | ⟨hmem, _⟩
        · exact hncwf
        · exact hwf c hmem
      · rcases insertBeforeIend_mem nc loopRes.1 c hc with rfl | hc'
        · exact hncwf
        · rcases injectReplaceLoop_mem nc keyword replace cs c hc' with rfl | ⟨hmem, _⟩
          · exact hncwf
          · exact hwf c hmem
    have hfiend : iendOnlyLast final := by
      rw [hfinaldef]
      split
      · exact injectReplaceLoop_iendOnlyLast nc keyword replace cs hnct hiend
      · exact insertBeforeIend_iendOnlyLast nc loopRes.1
          (by rw [hnct]; simp [tEXtBytes, iendBytes])
          (injectReplaceLoop_iendOnlyLast nc keyword replace cs hnct hiend)
    have hfidat : idatPayloads final = idatPayloads cs := by
      rw [hfinaldef]
      split
      · exact injectReplaceLoop_idat nc keyword replace cs hnct
      · rw [insertBeforeIend_idat nc loopRes.1 (by rw [hnct]; simp [tEXtBytes, idatBytes])]
        exact injectReplaceLoop_idat nc keyword replace cs hnct
    refine ⟨build_png final, ?_, ?_⟩
    · rw [inject_text_chunk, hok]
    · rw [hextractp, extract_idat_chunks, read_chunks_build_png final hfwf hfiend]
      exact congrArg Except.ok hfidat
  · -- remove_text_chunk
    set keep : PngChunk → Bool := fun c => ¬ shouldRemove zlib keyword c with hkeepdef
    have hkeepidat : ∀ c ∈ cs, c.chunk_type = idatBytes → keep c = true := by
      intro c _ h
      simp [hkeepdef, shouldRemove_idat zlib keyword c h]
    have hkeepiend : ∀ c ∈ cs, c.chunk_type = iendBytes → keep c = true := by
      intro c _ h
      simp [hkeepdef, shouldRemove_iend zlib keyword c h]
    have hfwf : ∀ c ∈ cs.filter keep, chunkWf c := by
      intro c hc
      exact hwf c (List.mem_of_mem_filter hc)
    have hfiend : iendOnlyLast (cs.filter keep) := filter_iendOnlyLast keep cs hkeepiend hiend
    refine ⟨build_png (cs.filter keep), ?_, ?_⟩
    · rw [remove_text_chunk, hok]
    · rw [hextractp, extract_idat_chunks, read_chunks_build_png _ hfwf hfiend]
      exact congrArg Except.ok (filter_idatPayloads keep cs hkeepidat)

/-! ### Base64 round trip and text-chunk decoding facts -/
theorem b64Inv_b64Char : ∀ n, n < 64 → b64Inv (b64Char n) = some n := by decide

theorem b64Char_ne_61 : ∀ n, n < 64 → b64Char n ≠ 61 := by decide

theorem base64_roundtrip : ∀ bs : List Nat, (∀ b ∈ bs, b < 256) →
    base64Decode (base64Encode bs) = some bs
  | [], _ => rfl
  | [a], h => by
    have ha : a < 256 := h a (by simp)
    have h1 : a / 4 < 64 := by omega
    have h2 : a % 4 * 16 < 64 := by omega
    simp only [base64Encode, base64Decode, b64Inv_b64Char _ h1, b64Inv_b64Char _ h2]
    norm_num
    omega
  | [a, b], h => by
    have ha : a < 256 := h a (by simp)
    have hb : b < 256 := h b (by simp)
    have h1 : a / 4 < 64 := by omega
    have h2 : a % 4 * 16 + b / 16 < 64 := by omega
    have h3 : b % 16 * 4 < 64 := by omega
    simp only [base64Encode, base64Decode, b64Inv_b64Char _ h1, b64Inv_b64Char _ h2,
      b64Inv_b64Char _ h3]
    rw [if_neg (fun hcontra => b64Char_ne_61 _ h3 hcontra.1)]
    norm_num
    omega
  | a :: b :: c :: rest, h => by
    have ha : a < 256 := h a (by simp)
    have hb : b < 256 := h b (by simp)
    have hc : c < 256 := h c (by simp)
    have h1 : a / 4 < 64 := by omega
    have h2 : a % 4 * 16 + b / 16 < 64 := by omega
    have h3 : b % 16 * 4 + c / 64 < 64 := by omega
    have h4 : c % 64 < 64 := by omega
    have hrest := base64_roundtrip rest (fun x hx => h x (by simp [hx]))
    simp only [base64Encode, base64Decode, b64Inv_b64Char _ h1, b64Inv_b64Char _ h2,
      b64Inv_b64Char _ h3, b64Inv_b64Char _ h4]
    rw [if_neg (fun hcontra => b64Char_ne_61 _ h3 hcontra.1),
      if_neg (fun hcontra => b64Char_ne_61 _ h4 hcontra.1)]
    rw [hrest]
    simp only [Option.map_some', Option.some.injEq, List.cons.injEq, and_true]
    refine ⟨by omega, by omega, by omega⟩

theorem b64Char_ne_zero (n : Nat) : b64Char n ≠ 0 := by
  simp only [b64Char]
  split <;> try omega
  split <;> try omega
  split <;> try omega
  split <;> omega

theorem base64Encode_ne_zero (txt : List Nat) : ∀ x ∈ base64Encode txt, x ≠ 0 := by
  match txt with
  | [] => simp [base64Encode]
  | [a] =>
    intro x hx
    simp only [base64Encode, List.mem_cons, List.not_mem_nil, or_false] at hx
    rcases hx with rfl | rfl | rfl | rfl <;> first | exact b64Char_ne_zero _ | omega
  | [a, b] =>
    intro x hx
    simp only [base64Encode, List.mem_cons, List.not_mem_nil, or_false] at hx
    rcases hx with rfl | rfl | rfl | rfl <;> first | exact b64Char_ne_zero _ | omega
  | a :: b :: c :: rest =>
    intro x hx
    simp only [base64Encode, List.mem_cons] at hx
    rcases hx with rfl | rfl | rfl | rfl | hx
    · exact b64Char_ne_zero _
    · exact b64Char_ne_zero _
    · exact b64Char_ne_zero _
    · exact b64Char_ne_zero _
    · exact base64Encode_ne_zero rest x hx

theorem splitFirstNull_append (k t : List Nat) (hk : ∀ b ∈ k, b ≠ 0) :
    splitFirstNull (k ++ 0 :: t) = some (k, t) := by
  induction k with
  | nil => simp [splitFirstNull]
  | cons b k' ih =>
    have hb : b ≠ 0 := hk b (by simp)
    have ih' := ih (fun x hx => hk x (by simp [hx]))
    show splitFirstNull (b :: (k' ++ 0 :: t)) = some (b :: k', t)
    simp [splitFirstNull, hb, ih']

/-- Decoding the chunk data that `build_text_chunk_data` produced recovers
the keyword and text exactly. -/
theorem decode_text_chunk_build (kw txt : List Nat) (hkw0 : ∀ b ∈ kw, b ≠ 0)
    (htxt : ∀ b ∈ txt, b < 256) :
    decode_text_chunk (build_text_chunk_data kw txt) = some (kw, txt) := by
  rw [decode_text_chunk, build_text_chunk_data, splitFirstNull_append kw _ hkw0]
  simp [base64_roundtrip txt htxt]

theorem textmap_lookup (zlib : List Nat → Option (List Nat)) (k : List Nat)
    (cs : List PngChunk) : ∀ m : List (List Nat × List Nat),
    mapLookup (cs.foldl (fun m c =>
        match decodeAnyTextChunk zlib c with
        | some (kw, txt) => mapInsert m kw txt
        | none => m) m) k =
      match lastKeyVal zlib k cs with
      | some v => some v
      | none => mapLookup m k := by
  induction cs with
  | nil => intro m; rfl
  | cons c cs ih =>
    intro m
    simp only [List.foldl_cons, lastKeyVal]
    rw [ih]
    cases htail : lastKeyVal zlib k cs with
    | some v => rfl
    | none =>
      cases hdec : decodeAnyTextChunk zlib c with
      | none => rfl
      | some p =>
        obtain ⟨kw, txt⟩ := p
        simp only [mapLookup_mapInsert]
        by_cases hk : kw = k
        · simp [hk]
        · simp [hk]

theorem lastKeyVal_eq_some (zlib : List Nat → Option (List Nat)) (k v : List Nat)
    (cs : List PngChunk) (h : lastKeyVal zlib k cs = some v) :
    ∃ c ∈ cs, decodeAnyTextChunk zlib c = some (k, v) := by
  induction cs with
  | nil => simp [lastKeyVal] at h
  | cons c cs ih =>
    simp only [lastKeyVal] at h
    cases htail : lastKeyVal zlib k cs with
    | some v' =>
      simp only [htail] at h
      obtain rfl : v' = v := by simpa using h
      obtain ⟨c', hc', hdec⟩ := ih htail
      exact ⟨c', List.mem_cons_of_mem _ hc', hdec⟩
    | none =>
      simp only [htail] at h
      cases hdec : decodeAnyTextChunk zlib c with
      | none => simp [hdec] at h
      | some p =>
        obtain ⟨kw, txt⟩ := p
        simp only [hdec] at h
        by_cases hk : kw = k
        · subst hk
          simp only [if_pos rfl] at h
          obtain rfl : txt = v := by simpa using h
          exact ⟨c, List.mem_cons_self _ _, hdec⟩
        · simp [if_neg hk] at h

theorem lastKeyVal_isSome (zlib : List Nat → Option (List Nat)) (k : List Nat)
    (cs : List PngChunk) (hex : ∃ c ∈ cs, ∃ v, decodeAnyTextChunk zlib c = some (k, v)) :
    (lastKeyVal zlib k cs).isSome := by
  induction cs with
  | nil => simp at hex
  | cons c cs ih =>
    simp only [lastKeyVal]
    cases htail : lastKeyVal zlib k cs with
    | some v => simp
    | none =>
      obtain ⟨c', hc', v, hdec⟩ := hex
      rcases List.mem_cons.mp hc' with rfl | hmem
      · simp [hdec]
      · have := ih ⟨c', hmem, v, hdec⟩
        rw [htail] at this
        simp at this

/-- C2 (amended): the inject/extract round trip restores `("ccv3", j)` for
every valid PNG *none of whose `iTXt`/`zTXt` chunks decodes to keyword
`ccv3`* — such a chunk is not replaced by `inject_text_chunk` (which only
rewrites `tEXt` chunks) and, when it sits later in the file, wins the
keyword map. -/
theorem c2_roundtrip_amended (p j : List Nat) (zlib : List Nat → Option (List Nat))
    (cs : List PngChunk)
    (hbytes : ∀ b ∈ p, b < 256) (hj : ∀ b ∈ j, b < 256)
    (hok : read_chunks p = .ok cs)
    (hitxt : ∀ c ∈ cs, c.chunk_type = iTXtBytes →
      (decode_itxt_chunk zlib c.data).map Prod.fst ≠ some ccv3Bytes)
    (hztxt : ∀ c ∈ cs, c.chunk_type = zTXtBytes →
      (decode_ztxt_chunk zlib c.data).map Prod.fst ≠ some ccv3Bytes)
    (hlen : (build_text_chunk_data ccv3Bytes j).length < 2 ^ 32) :
    ∃ out, inject_text_chunk p ccv3Bytes j true = .ok out ∧
      get_card_data zlib out = .ok (some (ccv3Bytes, j)) := by
  obtain ⟨hwf, hiend⟩ := read_chunks_wf p cs hbytes hok
  set nc : PngChunk := ⟨tEXtBytes, build_text_chunk_data ccv3Bytes j⟩ with hncdef
  have hncwf : chunkWf nc := injected_chunk_wf ccv3Bytes j (by decide) hlen
  have hnct : nc.chunk_type = tEXtBytes := rfl
  have hncdec : decode_text_chunk nc.data = some (ccv3Bytes, j) :=
    decode_text_chunk_build ccv3Bytes j (by decide) hj
  set loopRes := injectReplaceLoop nc ccv3Bytes true cs with hloopdef
  set final : List PngChunk :=
    if loopRes.2 then loopRes.1 else insertBeforeIend nc loopRes.1 with hfinaldef
  have hmemfinal : ∀ c ∈ final, c = nc ∨
      (c ∈ cs ∧ ¬ (c.chunk_type = tEXtBytes ∧
        (decode_text_chunk c.data).map Prod.fst = some ccv3Bytes)) := by
    intro c hc
    rw [hfinaldef] at hc
    have step : c ∈ loopRes.1 → c = nc ∨ (c ∈ cs ∧ ¬ (c.chunk_type = tEXtBytes ∧
        (decode_text_chunk c.data).map Prod.fst = some ccv3Bytes)) := by
      intro hc'
      rcases injectReplaceLoop_mem nc ccv3Bytes true cs c hc' with h | ⟨hmem, hcond⟩
      · exact Or.inl h
      · exact Or.inr ⟨hmem, fun h => hcond ⟨rfl, h.1, h.2⟩⟩
    split at hc
    · exact step hc
    · rcases insertBeforeIend_mem nc loopRes.1 c hc with h | hc'
      · exact Or.inl h
      · exact step hc'
  have hfwf : ∀ c ∈ final, chunkWf c := by
    intro c hc
    rcases hmemfinal c hc with rfl | ⟨hmem, _⟩
    · exact hncwf
    · exact hwf c hmem
  have hfiend : iendOnlyLast final := by
    rw [hfinaldef]
    split
    · exact injectReplaceLoop_iendOnlyLast nc ccv3Bytes true cs hnct hiend
    · exact insertBeforeIend_iendOnlyLast nc loopRes.1
        (by rw [hnct]; simp [tEXtBytes, iendBytes])
        (injectReplaceLoop_iendOnlyLast nc ccv3Bytes true cs hnct hiend)
  have hncmem : nc ∈ final := by
    rw [hfinaldef]
    split
    · rename_i hrep
      exact injectReplaceLoop_replaced_mem nc ccv3Bytes true cs hrep
    · exact insertBeforeIend_self_mem nc loopRes.1
  have hdecnc : decodeAnyTextChunk zlib nc = some (ccv3Bytes, j) := by
    rw [decodeAnyTextChunk, if_pos hnct, hncdec]
  have hlast : lastKeyVal zlib ccv3Bytes final = some j := by
    cases hres : lastKeyVal zlib ccv3Bytes final with
    | none =>
      have := lastKeyVal_isSome zlib ccv3Bytes final ⟨nc, hncmem, j, hdecnc⟩
      rw [hres] at this
      simp at this
    | some v =>
      obtain ⟨c, hc, hdec⟩ := lastKeyVal_eq_some zlib ccv3Bytes v final hres
      rcases hmemfinal c hc with rfl | ⟨_, hcond⟩
      · rw [hdecnc] at hdec
        cases hdec
        rfl
      · exfalso
        rw [decodeAnyTextChunk] at hdec
        by_cases ht : c.chunk_type = tEXtBytes
        · rw [if_pos ht] at hdec
          exact hcond ⟨ht, by rw [hdec]; rfl⟩
        · rw [if_neg ht] at hdec
          by_cases hi : c.chunk_type = iTXtBytes
          · rw [if_pos hi] at hdec
            exact hitxt c (hmemfinal c hc |>.resolve_left
              (fun h => ht (h ▸ hnct)) |>.1) hi (by rw [hdec]; rfl)
          · rw [if_neg hi] at hdec
            by_cases hz : c.chunk_type = zTXtBytes
            · rw [if_pos hz] at hdec
              exact hztxt c (hmemfinal c hc |>.resolve_left
                (fun h => ht (h ▸ hnct)) |>.1) hz (by rw [hdec]; rfl)
            · rw [if_neg hz] at hdec
              cases hdec
  refine ⟨build_png final, ?_, ?_⟩
  · rw [inject_text_chunk, hok]
  · have hmap := textmap_lookup zlib ccv3Bytes final []
    simp only [hlast] at hmap
    rw [get_card_data, read_text_chunks, read_chunks_build_png final hfwf hfiend]
    simp only [hmap]

/-- Successful parses have `IEND` at most in final position (no byte-range
hypothesis needed). -/
theorem readChunksLoop_iendOnly (fuel : Nat) (rest : List Nat) (cs : List PngChunk)
    (hok : readChunksLoop fuel rest = .ok cs) : iendOnlyLast cs := by
  induction fuel generalizing rest cs with
  | zero =>
    simp only [readChunksLoop, Except.ok.injEq] at hok
    subst hok
    exact trivial
  | succ fuel ih =>
    by_cases hlen : rest.length < 8
    · rw [readChunksLoop_short _ _ hlen] at hok
      cases hok
      exact trivial
    · obtain ⟨b0, b1, b2, b3, t0, t1, t2, t3, rest', rfl⟩ :=
        exists_cons8 rest (by omega)
      rw [readChunksLoop_cons] at hok
      by_cases htrunc : rest'.length < be32 b0 b1 b2 b3 + 4
      · simp [htrunc] at hok
      · rw [if_neg htrunc] at hok
        by_cases hiendc : [t0, t1, t2, t3] = iendBytes
        · rw [if_pos hiendc] at hok
          simp only [Except.ok.injEq] at hok
          subst hok
          exact ⟨Or.inl rfl, trivial⟩
        · rw [if_neg hiendc] at hok
          cases hrec : readChunksLoop fuel (rest'.drop (be32 b0 b1 b2 b3 + 4)) with
          | error e => rw [hrec] at hok; cases hok
          | ok cs' =>
            rw [hrec] at hok
            simp only [Except.ok.injEq] at hok
            subst hok
            exact ⟨Or.inr (fun h => hiendc h), ih _ _ hrec⟩

/-- C2 counterexample: on `pngWithItxt` (a PNG that `read_chunks` accepts),
injecting `j = "y"` (bytes `[121]`) as a replaced `ccv3` `tEXt` chunk and
then extracting yields the `iTXt` chunk's text `"T"` (bytes `[84]`), not
`j`: `inject_text_chunk` rewrites only `tEXt` chunks, and the later `iTXt`
chunk wins the keyword map of `read_text_chunks`.  This refutes the claim's
unrestricted round trip. -/
theorem c2_roundtrip_counterexample :
    (match inject_text_chunk pngWithItxt ccv3Bytes [121] true with
      | .ok out => get_card_data zlibNone out
      | .error e => .error e) = .ok (some (ccv3Bytes, [84])) ∧
    ([84] : List Nat) ≠ [121] := by
  constructor
  · rfl
  · decide

/-- C2 witness for the amended theorem: on `pngMinimal` (no `iTXt`/`zTXt`
chunks at all) the round trip restores `("ccv3", j)` exactly. -/
theorem c2_roundtrip_witness :
    read_chunks pngMinimal = .ok pngMinimalChunks ∧
    ∃ out, inject_text_chunk pngMinimal ccv3Bytes [121] true = .ok out ∧
      get_card_data zlibNone out = .ok (some (ccv3Bytes, [121])) :=
  ⟨by rfl, c2_roundtrip_amended pngMinimal [121] zlibNone pngMinimalChunks
    (by decide) (by decide) (by rfl) (by decide) (by decide) (by decide)⟩

/-- C1 witness: the IDAT-preservation theorem applied to `pngMinimal`. -/
theorem c1_idat_preserved_witness :
    read_chunks pngMinimal = .ok pngMinimalChunks ∧
    ((∃ out, inject_text_chunk pngMinimal ccv3Bytes [121] false = .ok out ∧
        extract_idat_chunks out = extract_idat_chunks pngMinimal) ∧
      (∃ out, remove_text_chunk zlibNone pngMinimal ccv3Bytes = .ok out ∧
        extract_idat_chunks out = extract_idat_chunks pngMinimal)) :=
  ⟨by rfl, c1_idat_preserved pngMinimal ccv3Bytes [121] false zlibNone pngMinimalChunks
    (by decide) (by decide) (by rfl) (by decide)⟩

/-- The raising direction of the truncation error: after any number of
complete well-formed non-`IEND` wire chunks (arbitrary CRC bytes — the loop
skips them unvalidated), a full 8-byte chunk header whose declared
`length + 4` exceeds the remaining bytes makes the loop fail with
`PngChunkError("Truncated chunk")`. -/
theorem readChunksLoop_truncated (cws : List (PngChunk × List Nat))
    (hwf : ∀ p ∈ cws, chunkWf p.1 ∧ p.2.length = 4 ∧ p.1.chunk_type ≠ iendBytes)
    (b0 b1 b2 b3 t0 t1 t2 t3 : Nat) (rest' : List Nat)
    (htrunc : rest'.length < be32 b0 b1 b2 b3 + 4) :
    ∀ fuel,
      ((cws.flatMap (fun p => serializeChunkWith p.1 p.2)) ++
        b0 :: b1 :: b2 :: b3 :: t0 :: t1 :: t2 :: t3 :: rest').length < fuel →
      readChunksLoop fuel ((cws.flatMap (fun p => serializeChunkWith p.1 p.2)) ++
        b0 :: b1 :: b2 :: b3 :: t0 :: t1 :: t2 :: t3 :: rest') =
        .error (.pngChunkError "Truncated chunk") := by
  induction cws with
  | nil =>
    intro fuel hfuel
    cases fuel with
    | zero => simp at hfuel
    | succ fuel =>
      show readChunksLoop (fuel + 1)
        (b0 :: b1 :: b2 :: b3 :: t0 :: t1 :: t2 :: t3 :: rest') = _
      rw [readChunksLoop_cons, if_pos htrunc]
  | cons cw cws' ih =>
    intro fuel hfuel
    obtain ⟨⟨hty4, _, hdlen, _⟩, hcrc4, hniend⟩ := hwf cw (List.mem_cons_self _ _)
    obtain ⟨u0, u1, u2, u3, hty⟩ := exists_len4 cw.1.chunk_type hty4
    have hstream : ((cw :: cws').flatMap (fun p => serializeChunkWith p.1 p.2)) ++
        b0 :: b1 :: b2 :: b3 :: t0 :: t1 :: t2 :: t3 :: rest' =
        (cw.1.data.length / 2 ^ 24 % 256) :: (cw.1.data.length / 2 ^ 16 % 256) ::
        (cw.1.data.length / 2 ^ 8 % 256) :: (cw.1.data.length % 256) ::
        u0 :: u1 :: u2 :: u3 ::
        (cw.1.data ++ (cw.2 ++
          ((cws'.flatMap (fun p => serializeChunkWith p.1 p.2)) ++
            b0 :: b1 :: b2 :: b3 :: t0 :: t1 :: t2 :: t3 :: rest'))) := by
      simp only [List.flatMap_cons, serializeChunkWith, u32be, hty, List.append_assoc,
        List.cons_append, List.nil_append, List.cons.injEq, and_true, true_and]
      omega
    rw [hstream] at hfuel ⊢
    cases fuel with
    | zero => simp at hfuel
    | succ fuel =>
      rw [readChunksLoop_cons, be32_u32be cw.1.data.length hdlen]
      have hnotrunc : ¬ ((cw.1.data ++ (cw.2 ++
          ((cws'.flatMap (fun p => serializeChunkWith p.1 p.2)) ++
            b0 :: b1 :: b2 :: b3 :: t0 :: t1 :: t2 :: t3 :: rest'))).length <
          cw.1.data.length + 4) := by
        simp only [List.length_append, List.length_cons]
        omega
      rw [if_neg hnotrunc]
      have hiendc : ¬ ([u0, u1, u2, u3] = iendBytes) := by
        rw [← hty]; exact hniend
      rw [if_neg hiendc]
      have hdrop : (cw.1.data ++ (cw.2 ++
          ((cws'.flatMap (fun p => serializeChunkWith p.1 p.2)) ++
            b0 :: b1 :: b2 :: b3 :: t0 :: t1 :: t2 :: t3 :: rest'))).drop
          (cw.1.data.length + 4) =
          (cws'.flatMap (fun p => serializeChunkWith p.1 p.2)) ++
            b0 :: b1 :: b2 :: b3 :: t0 :: t1 :: t2 :: t3 :: rest' := by
        rw [List.drop_append, show (4 : Nat) = cw.2.length from hcrc4.symm,
          List.drop_left]
      rw [hdrop]
      rw [ih (fun p hp => hwf p (List.mem_cons_of_mem _ hp)) fuel (by
        simp only [List.length_append, List.length_cons] at hfuel ⊢
        omega)]

/-- C8 (amended): `read_chunks` fails with `InvalidPngSignature` exactly on
inputs that do not begin with the 8-byte PNG signature; its only other
error is `PngChunkError("Truncated chunk")`, and that error *is raised*
whenever, after any prefix of complete well-formed non-`IEND` chunks, a
full 8-byte chunk header declares data and CRC that overrun the input;
a successful parse places `IEND` at most in final position and is
insensitive to bytes after a final `IEND`; and when fewer than 8 bytes
remain before a chunk header, the loop stops and returns the chunks so far
instead of failing. -/
theorem c8_read_chunks_amended :
    (∀ p : List Nat, read_chunks p = .error .invalidPngSignature ↔
      (p.length < 8 ∨ p.take 8 ≠ pngSignature)) ∧
    (∀ (p : List Nat) (e : String), read_chunks p = .error (.pngChunkError e) →
      e = "Truncated chunk") ∧
    (∀ (p : List Nat) (cs : List PngChunk), read_chunks p = .ok cs → iendOnlyLast cs) ∧
    (∀ (p g : List Nat) (cs : List PngChunk), read_chunks p = .ok cs → lastIsIend cs →
      read_chunks (p ++ g) = .ok cs) ∧
    (∀ g : List Nat, g.length < 8 → read_chunks (pngSignature ++ g) = .ok []) ∧
    (∀ (cws : List (PngChunk × List Nat)) (b0 b1 b2 b3 t0 t1 t2 t3 : Nat)
        (rest' : List Nat),
      (∀ p ∈ cws, chunkWf p.1 ∧ p.2.length = 4 ∧ p.1.chunk_type ≠ iendBytes) →
      rest'.length < be32 b0 b1 b2 b3 + 4 →
      read_chunks (pngSignature ++
          ((cws.flatMap (fun p => serializeChunkWith p.1 p.2)) ++
            b0 :: b1 :: b2 :: b3 :: t0 :: t1 :: t2 :: t3 :: rest')) =
        .error (.pngChunkError "Truncated chunk")) := by
  refine ⟨read_chunks_invalidSig_iff, read_chunks_error_msg, ?_, ?_, ?_, ?_⟩
  · intro p cs hok
    rw [read_chunks] at hok
    by_cases hcond : p.length < 8 ∨ p.take 8 ≠ pngSignature
    · rw [if_pos hcond] at hok; cases hok
    · rw [if_neg hcond] at hok
      exact readChunksLoop_iendOnly _ _ _ hok
  · intro p g cs hok hlast
    rw [read_chunks] at hok
    by_cases hcond : p.length < 8 ∨ p.take 8 ≠ pngSignature
    · rw [if_pos hcond] at hok; cases hok
    · rw [if_neg hcond] at hok
      push_neg at hcond
      obtain ⟨hplen, hsig⟩ := hcond
      rw [read_chunks, if_neg (by
        push_neg
        refine ⟨by simp; omega, ?_⟩
        rw [List.take_append_of_le_length (by omega)]
        exact hsig)]
      rw [List.drop_append_of_le_length (by omega)]
      exact readChunksLoop_append _ _ g _ hok hlast _
        (by simp; omega)
  · intro g hg
    rw [read_chunks, if_neg (by
      push_neg
      constructor
      · simp [pngSignature]
      · show (pngSignature ++ g).take 8 = pngSignature
        rw [show (8 : Nat) = pngSignature.length from rfl, List.take_left])]
    rw [show (pngSignature ++ g).drop 8 = g by simp [pngSignature]]
    exact readChunksLoop_short _ _ hg
  · intro cws b0 b1 b2 b3 t0 t1 t2 t3 rest' hwf htrunc
    rw [read_chunks, if_neg (by
      push_neg
      constructor
      · simp [pngSignature]
      · show (pngSignature ++ _).take 8 = pngSignature
        rw [show (8 : Nat) = pngSignature.length from rfl, List.take_left])]
    rw [show ∀ l : List Nat, (pngSignature ++ l).drop 8 = l from
      fun l => by simp [pngSignature]]
    refine readChunksLoop_truncated cws hwf b0 b1 b2 b3 t0 t1 t2 t3 rest' htrunc _ ?_
    simp [pngSignature]
    omega

/-- C8 counterexample: `read_chunks` on a stream that ends mid-chunk right
after the signature (four bytes of a would-be chunk header, no `IEND`
anywhere) succeeds with an empty chunk list instead of failing with
`PngChunkError`, refuting the claim that every stream ending mid-chunk
before `IEND` produces that error. -/
theorem c8_read_chunks_counterexample :
    read_chunks (pngSignature ++ [0, 0, 0, 9]) = .ok [] ∧
    ∀ msg, read_chunks (pngSignature ++ [0, 0, 0, 9]) ≠ .error (.pngChunkError msg) := by
  constructor
  · rfl
  · intro msg h
    rw [show read_chunks (pngSignature ++ [0, 0, 0, 9]) = .ok [] from rfl] at h
    cases h

/-- C8 witness: the amended theorem applied at concrete inputs, including the
truncation error raised after one complete IDAT wire chunk when a tEXt header
declares 9 data bytes with nothing following. -/
theorem c8_read_chunks_witness :
    (read_chunks ([] : List Nat) = .error .invalidPngSignature ↔
      (([] : List Nat).length < 8 ∨ ([] : List Nat).take 8 ≠ pngSignature)) ∧
    read_chunks (pngMinimal ++ [1, 2, 3]) = .ok pngMinimalChunks ∧
    read_chunks (pngSignature ++ [0, 0]) = .ok [] ∧
    read_chunks (pngSignature ++
        (([(⟨idatBytes, [7]⟩, [0, 0, 0, 0])].flatMap
          (fun p => serializeChunkWith p.1 p.2)) ++
          0 :: 0 :: 0 :: 9 :: 116 :: 69 :: 88 :: 116 :: ([] : List Nat))) =
      .error (.pngChunkError "Truncated chunk") :=
  ⟨c8_read_chunks_amended.1 [],
    c8_read_chunks_amended.2.2.2.1 pngMinimal [1, 2, 3] pngMinimalChunks
      (by rfl) (by rfl),
    c8_read_chunks_amended.2.2.2.2.1 [0, 0] (by decide),
    c8_read_chunks_amended.2.2.2.2.2 [(⟨idatBytes, [7]⟩, [0, 0, 0, 0])]
      0 0 0 9 116 69 88 116 []
      (by
        intro p hp
        simp only [List.mem_singleton] at hp
        subst hp
        exact ⟨⟨rfl, by decide, by decide, by decide⟩, rfl, by decide⟩)
      (by decide)⟩

end Arcaferry.Png

namespace Arcaferry.Quack

open Arcaferry

/-! ## Theorems for C3–C6 -/
/-- C3: every mapped lorebook entry has `selective` true iff the parsed
`secondary_keys` are non-empty, `position = "after_char"` exactly for
upstream position 1 and `"before_char"` for 0, absent or out-of-range
values, and `insertion_order = index + 1`. -/
theorem c3_lorebook_entry_mapping (entry : QuackLorebookEntry) (index : Int) :
    ((map_lorebook_entry entry index).selective = some true ↔
      parse_keys entry.secondary_keys ≠ []) ∧
    (map_lorebook_entry entry index).secondary_keys = parse_keys entry.secondary_keys ∧
    (entry.position = some 1 →
      (map_lorebook_entry entry index).position = some "after_char") ∧
    (entry.position ≠ some 1 →
      (map_lorebook_entry entry index).position = some "before_char") ∧
    (map_lorebook_entry entry index).insertion_order = index + 1 := by
  refine ⟨?_, rfl, ?_, ?_, rfl⟩
  · simp only [map_lorebook_entry, Option.some.injEq]
    constructor
    · intro h hnil
      rw [hnil] at h
      simp at h
    · intro h
      simp [List.isEmpty_eq_false_iff_exists_mem.mpr
        (List.exists_mem_of_ne_nil _ h)]
  · intro h
    simp [map_lorebook_entry, h]
  · intro h
    by_cases h0 : entry.position = some 0
    · simp [map_lorebook_entry, h0]
    · simp [map_lorebook_entry, h0, h]

/-- C3 witness: a concrete entry with `secondary_keys = "s"` and an
out-of-range position 5, mapped at index 3. -/
theorem c3_lorebook_entry_mapping_witness :
    ((map_lorebook_entry { emptyLorebookEntry with
        secondary_keys := some "s", position := some 5 } 3).selective = some true ↔
      parse_keys (some "s") ≠ []) ∧
    (map_lorebook_entry { emptyLorebookEntry with
        secondary_keys := some "s", position := some 5 } 3).position =
      some "before_char" ∧
    (map_lorebook_entry { emptyLorebookEntry with
        secondary_keys := some "s", position := some 5 } 3).insertion_order = 4 :=
  ⟨(c3_lorebook_entry_mapping _ 3).1,
    (c3_lorebook_entry_mapping _ 3).2.2.2.1 (by decide),
    (c3_lorebook_entry_mapping _ 3).2.2.2.2⟩

/-- C4: with empty parsed keys, a `constant = true` entry keeps empty keys;
a non-constant entry falls back to `[name]` when the name is non-empty and
keeps empty keys when the name is empty or absent; and `map_lorebook` emits
exactly one mapped entry per upstream entry (nothing is dropped). -/
theorem c4_lorebook_entry_fallback (entry : QuackLorebookEntry) (index : Int) :
    (parse_keys entry.keys = [] → entry.constant = some true →
      (map_lorebook_entry entry index).keys = []) ∧
    (parse_keys entry.keys = [] → entry.constant ≠ some true → ∀ n, entry.name = some n →
      n ≠ "" → (map_lorebook_entry entry index).keys = [n]) ∧
    (parse_keys entry.keys = [] → entry.constant ≠ some true →
      (entry.name = none ∨ entry.name = some "") →
      (map_lorebook_entry entry index).keys = []) ∧
    (∀ (entries : List QuackLorebookEntry) (bookName : Option String),
      (map_lorebook entries bookName).entries.length = entries.length) := by
  have hconst : entry.constant ≠ some true → entry.constant.getD false = false := by
    intro h
    rcases hc : entry.constant with _ | b
    · rfl
    · cases b
      · rfl
      · exact absurd hc h
  refine ⟨?_, ?_, ?_, ?_⟩
  · intro hkeys hc
    simp [map_lorebook_entry, hkeys, hc]
  · intro hkeys hc n hn hne
    simp [map_lorebook_entry, hkeys, hconst hc, hn, hne]
  · intro hkeys hc hname
    rcases hname with hname | hname <;>
      simp [map_lorebook_entry, hkeys, hconst hc, hname]
  · intro entries bookName
    simp [map_lorebook]

/-- C4 witness: the three key-fallback branches at concrete entries. -/
theorem c4_lorebook_entry_fallback_witness :
    (map_lorebook_entry { emptyLorebookEntry with
      keys := some "", constant := some true, name := some "E" } 0).keys = [] ∧
    (map_lorebook_entry { emptyLorebookEntry with
      keys := some " , ", name := some "E" } 0).keys = ["E"] ∧
    (map_lorebook_entry { emptyLorebookEntry with
      keys := some "", constant := some false, name := some "" } 0).keys = [] ∧
    (map_lorebook [emptyLorebookEntry, emptyLorebookEntry] none).entries.length = 2 :=
  ⟨(c4_lorebook_entry_fallback _ 0).1 (by decide) rfl,
    (c4_lorebook_entry_fallback _ 0).2.1 (by decide) (by decide) "E" rfl (by decide),
    (c4_lorebook_entry_fallback _ 0).2.2.1 (by decide) (by decide) (Or.inr rfl),
    (c4_lorebook_entry_fallback emptyLorebookEntry 0).2.2.2 _ none⟩

/-- C5: every card the mapper emits carries the `"QuackAI"` tag, and when
the upstream tag list (the string elements of `extra["tags"]`) did not
already contain it, the card's tags are exactly `"QuackAI"` at index 0
followed by the upstream tags in order. -/
theorem c5_tags_invariant (now : Int) (info : QuackCharacterInfo)
    (entries : List QuackLorebookEntry) :
    "QuackAI" ∈ (map_quack_to_v3 now info entries).data.tags ∧
    ("QuackAI" ∉ extractTagsBase info →
      (map_quack_to_v3 now info entries).data.tags = "QuackAI" :: extractTagsBase info) := by
  have htags : (map_quack_to_v3 now info entries).data.tags = extract_tags info := rfl
  rw [htags]
  rw [extract_tags]
  by_cases h : (extractTagsBase info).any (fun t => t = "QuackAI")
  · rw [if_pos h]
    obtain ⟨t, ht, heq⟩ := List.any_eq_true.mp h
    constructor
    · simpa [of_decide_eq_true heq] using ht
    · intro hmem
      exact absurd (by simpa [of_decide_eq_true heq] using ht) hmem
  · rw [if_neg h]
    exact ⟨List.mem_cons_self _ _, fun _ => rfl⟩

/-- C5 witness: on upstream tags `["TestTag"]` (no prior `"QuackAI"`) the
emitted tags are `["QuackAI", "TestTag"]`. -/
theorem c5_tags_invariant_witness :
    "QuackAI" ∈ (map_quack_to_v3 0 infoC5 []).data.tags ∧
    (map_quack_to_v3 0 infoC5 []).data.tags = "QuackAI" :: extractTagsBase infoC5 :=
  ⟨(c5_tags_invariant 0 infoC5 []).1,
    (c5_tags_invariant 0 infoC5 []).2 (by decide)⟩

theorem filterMap_filter_eq {α β : Type} (p : α → Bool) (f : α → Option β) (l : List α) :
    (l.filter p).filterMap f = l.filterMap (fun a => if p a then f a else none) := by
  induction l with
  | nil => rfl
  | cons a rest ih =>
    by_cases hp : p a
    · simp [List.filter_cons, hp, List.filterMap_cons, ih]
    · simp [List.filter_cons, hp, List.filterMap_cons, ih]

theorem format_attrs_eq_amendedC6 (attrs : List QuackAttribute) :
    format_attrs attrs true = descriptionAmendedC6 attrs := by
  rw [format_attrs, descriptionAmendedC6]
  congr 1
  rw [filterMap_filter_eq]
  congr 1
  funext a
  by_cases hv : a.is_visible.getD true
  · rcases hl : a.label.or a.name with _ | l
    · simp [hv, hl]
    · rcases hval : a.value with _ | v
      · simp [hv, hl, hval]
      · by_cases hle : l = ""
        · simp [hv, hl, hval, hle]
        · by_cases hve : v = ""
          · simp [hv, hl, hval, hle, hve]
          · simp [hv, hl, hval, hle, hve]
  · simp [hv]

/-- C6 (amended): the mapped description is exactly the `[Label: Value]`
join over all collected attributes that are visible-or-unmarked with a
present-and-non-empty effective label (the `label` field when present, else
the `name`) and a present-and-non-empty value. -/
theorem c6_description_amended (now : Int) (info : QuackCharacterInfo)
    (entries : List QuackLorebookEntry) :
    (map_quack_to_v3 now info entries).data.description =
      descriptionAmendedC6 (collect_all_attrs info) := by
  have : (map_quack_to_v3 now info entries).data.description =
      format_attrs (collect_all_attrs info) true := rfl
  rw [this, format_attrs_eq_amendedC6]

/-- C6 counterexample: for an attribute with `label = Some("")`,
`name = "N"`, `value = "V"`, the claim's formula (label falls back to name
when *empty*) predicts the line `[N: V]`, but the code emits nothing: the
fallback happens only when the label is *absent*. -/
theorem c6_description_counterexample :
    (map_quack_to_v3 0 infoC6 []).data.description = "" ∧
    descriptionClaimC6 (collect_all_attrs infoC6) = "[N: V]" ∧
    ("" : String) ≠ "[N: V]" := by
  refine ⟨by rfl, by rfl, by decide⟩

end Arcaferry.Quack

namespace Arcaferry.Server

open Arcaferry Arcaferry.Quack

/-- C7: `apply_to_vec` assigns a looked-up value to exactly the hidden
entries with empty-or-whitespace value (by trimmed label, else by trimmed
name) and returns the number of assignments; the JSON patch preserves every
sibling key other than `"value"`; and on the four-location scenario with
sidecar output `[{label:"X", value:"V"}]` all four locations end up holding
`"V"`, the unknown sibling key survives, and the applied count is 4. -/
theorem c7_hidden_settings_merge :
    (∀ (values : List (String × String)) (attrs : List QuackAttribute),
      (apply_to_vec attrs values).1 = attrs.map (fun t =>
        match hiddenEmptyLookup values t with
        | some v => { t with value := some v }
        | none => t) ∧
      (apply_to_vec attrs values).2 =
        attrs.countP (fun t => (hiddenEmptyLookup values t).isSome)) ∧
    (∀ (values : List (String × String)) (item : Json) (k : String), k ≠ "value" →
      jsonGet (patchJsonItem values item).1 k = jsonGet item k) ∧
    ((apply_hidden_settings infoC7 extractedC7).2 = 4 ∧
      (apply_hidden_settings infoC7 extractedC7).1.custom_attrs =
        some (.arr [.obj [("label", .str "X"), ("isVisible", .bool false),
          ("value", .str "V"), ("note", .str "keep")]]) ∧
      (apply_hidden_settings infoC7 extractedC7).1.char_list =
        some [{ emptyCharItem with
          attrs := some [{ hiddenAttrX with value := some "V" }]
          advise_attrs := some [{ hiddenAttrX with value := some "V" }]
          custom_attrs := some [{ hiddenAttrX with value := some "V" }] }]) := by
  refine ⟨?_, ?_, by rfl, by rfl, by rfl⟩
  · intro values attrs
    induction attrs with
    | nil => exact ⟨rfl, rfl⟩
    | cons t rest ih =>
      obtain ⟨ih1, ih2⟩ := ih
      by_cases h1 : t.is_visible = some false
      · by_cases h2 : rustTrim (t.value.getD "") = ""
        · cases hf : (if rustTrim (t.label.getD "") ≠ "" then
              mapLookup values (rustTrim (t.label.getD ""))
            else if rustTrim (t.name.getD "") ≠ "" then
              mapLookup values (rustTrim (t.name.getD ""))
            else none) with
          | some v =>
            constructor
            · simp only [apply_to_vec, h1, h2, hiddenEmptyLookup, ih1, hf,
                List.map_cons]
              simp [hf, h1, h2]
            · simp only [apply_to_vec, h1, h2, hiddenEmptyLookup, ih2, hf,
                List.countP_cons]
              simp [hf, h1, h2]
          | none =>
            constructor
            · simp only [apply_to_vec, h1, h2, hiddenEmptyLookup, ih1, hf,
                List.map_cons]
              simp [hf, h1, h2]
            · simp only [apply_to_vec, h1, h2, hiddenEmptyLookup, ih2, hf,
                List.countP_cons]
              simp [hf, h1, h2]
        · constructor
          · simp only [apply_to_vec, h1, h2, hiddenEmptyLookup, ih1, List.map_cons]
            simp [h1, h2]
          · simp only [apply_to_vec, h1, h2, hiddenEmptyLookup, ih2, List.countP_cons]
            simp [h1, h2]
      · constructor
        · simp only [apply_to_vec, h1, hiddenEmptyLookup, ih1, List.map_cons]
          simp [h1]
        · simp only [apply_to_vec, h1, hiddenEmptyLookup, ih2, List.countP_cons]
          simp [h1]
  · intro values item k hk
    match item with
    | .null | .bool _ | .num _ | .str _ | .arr _ => rfl
    | .obj fields =>
      simp only [patchJsonItem]
      by_cases hv : ((mapLookup fields "isVisible").bind Json.asBool) ≠ some false
      · rw [if_pos hv]
      · rw [if_neg hv]
        by_cases hval : rustTrim (((mapLookup fields "value").bind Json.asStr).getD "") ≠ ""
        · rw [if_pos hval]
        · rw [if_neg hval]
          cases hf : (if rustTrim (((mapLookup fields "label").bind Json.asStr).getD "") ≠ ""
              then mapLookup values
                (rustTrim (((mapLookup fields "label").bind Json.asStr).getD ""))
              else if rustTrim (((mapLookup fields "name").bind Json.asStr).getD "") ≠ ""
              then mapLookup values
                (rustTrim (((mapLookup fields "name").bind Json.asStr).getD ""))
              else none) with
          | some v =>
            simp only [hf, jsonGet]
            rw [mapLookup_mapInsert]
            rw [if_neg (fun h => hk h.symm)]
          | none => simp only [hf]

/-- C7 witness: the sibling-preservation part applied at the concrete JSON
object (key `"note"`), plus the count equation at the concrete typed
attribute. -/
theorem c7_hidden_settings_merge_witness :
    jsonGet (patchJsonItem [("X", "V")] hiddenJsonX).1 "note" =
      jsonGet hiddenJsonX "note" ∧
    (apply_to_vec [hiddenAttrX] [("X", "V")]).2 =
      [hiddenAttrX].countP (fun t => (hiddenEmptyLookup [("X", "V")] t).isSome) :=
  ⟨c7_hidden_settings_merge.2.1 [("X", "V")] hiddenJsonX "note" (by decide),
    (c7_hidden_settings_merge.1 [("X", "V")] [hiddenAttrX]).2⟩

/-- C9: the preview intro truncation is *not* total: on the 201-byte intro
made of 67 copies of the three-byte character `你`, byte index 197 falls
inside a character, `&s[..197]` panics (modelled as `none`), contradicting
the claim that the truncation succeeds for every input string.  For ASCII
inputs of more than 200 bytes the truncation does succeed. -/
theorem c9_intro_truncation_panics :
    preview_intro (some introC9) none = none ∧
    introC9.length = 201 ∧
    (∀ s : List Nat, (∀ b ∈ s, b < 0x80) → (preview_intro (some s) none).isSome) := by
  refine ⟨by decide, by decide, ?_⟩
  intro s hs
  simp only [preview_intro, Option.or, truncate_intro]
  by_cases hlen : s.length > 200
  · rw [if_pos hlen]
    have hb : isCharBoundary s 197 = true := by
      rw [isCharBoundary]
      rw [if_neg (by omega)]
      cases hg : s.get? 197 with
      | some b =>
        have : b < 0x80 := hs b (List.get?_mem hg)
        simp [this]
      | none =>
        have := List.get?_eq_none.mp hg
        omega
    rw [hb]
    simp
  · rw [if_neg hlen]
    simp

end Arcaferry.Server

namespace Arcaferry.Cookies

open Arcaferry

/-- C10: `CookieJar::parse` errs only on JSON-array-form input (trimmed
text starting with `'['`) whose JSON fails to parse, and the error is
`InvalidJson` with that parser's message; every non-`[` input — empty,
Netscape-form or header-form — yields `Ok`; and the per-line/per-pair steps
silently skip comment lines, lines with fewer than 7 tab-separated fields,
Netscape entries with an empty name, pairs without `'='`, and pairs whose
trimmed name is empty. -/
theorem c10_cookie_parse (jsonParse : String → Except String (List Json))
    (input : String) :
    (∀ e, CookieJar.parse jsonParse input = .error e →
      strStartsWith (rustTrim input) "[" = true ∧
      ∃ msg, jsonParse (rustTrim input) = .error msg ∧ e = .invalidJson msg) ∧
    (strStartsWith (rustTrim input) "[" ≠ true →
      ∃ jar, CookieJar.parse jsonParse input = .ok jar) ∧
    (rustTrim input = "" → CookieJar.parse jsonParse input = .ok []) ∧
    (∀ (jar : CookieJar) (line : String),
      (rustTrim line = "" ∨ strStartsWith (rustTrim line) "#" = true ∨
        (rustSplit '\t' (rustTrim line)).length < 7 ∨
        (rustSplit '\t' (rustTrim line)).getD 5 "" = "") →
      netscapeLine jar line = jar) ∧
    (∀ (jar : CookieJar) (pair : String),
      splitFirstChar '=' (rustTrim pair) = none → headerPair jar pair = jar) ∧
    (∀ (jar : CookieJar) (pair : String) (before after : String),
      splitFirstChar '=' (rustTrim pair) = some (before, after) →
      rustTrim before = "" → headerPair jar pair = jar) := by
  refine ⟨?_, ?_, ?_, ?_, ?_, ?_⟩
  · intro e herr
    rw [CookieJar.parse] at herr
    by_cases h0 : rustTrim input = ""
    · rw [if_pos h0] at herr; cases herr
    · rw [if_neg h0] at herr
      by_cases h1 : strStartsWith (rustTrim input) "[" = true
      · rw [if_pos h1, parse_json] at herr
        refine ⟨h1, ?_⟩
        cases hjp : jsonParse (rustTrim input) with
        | error msg =>
          rw [hjp] at herr
          cases herr
          exact ⟨msg, rfl, rfl⟩
        | ok vals => rw [hjp] at herr; cases herr
      · rw [if_neg h1] at herr
        by_cases h2 : (rustTrim input).toList.contains '\t'
          || strStartsWith (rustTrim input) "#"
        · rw [if_pos h2] at herr; cases herr
        · rw [if_neg h2] at herr; cases herr
  · intro h1
    rw [CookieJar.parse]
    by_cases h0 : rustTrim input = ""
    · rw [if_pos h0]; exact ⟨[], rfl⟩
    · rw [if_neg h0, if_neg h1]
      by_cases h2 : (rustTrim input).toList.contains '\t'
        || strStartsWith (rustTrim input) "#"
      · rw [if_pos h2]; exact ⟨_, rfl⟩
      · rw [if_neg h2]; exact ⟨_, rfl⟩
  · intro h0
    rw [CookieJar.parse, if_pos h0]
  · intro jar line h
    rw [netscapeLine]
    rcases h with h | h | h | h
    · rw [if_pos h]
    · by_cases h0 : rustTrim line = ""
      · rw [if_pos h0]
      · rw [if_neg h0, if_pos h]
    · by_cases h0 : rustTrim line = ""
      · rw [if_pos h0]
      · rw [if_neg h0]
        by_cases h1 : strStartsWith (rustTrim line) "#" = true
        · rw [if_pos h1]
        · rw [if_neg h1, if_neg (by omega)]
    · by_cases h0 : rustTrim line = ""
      · rw [if_pos h0]
      · rw [if_neg h0]
        by_cases h1 : strStartsWith (rustTrim line) "#" = true
        · rw [if_pos h1]
        · rw [if_neg h1]
          by_cases h7 : (rustSplit '\t' (rustTrim line)).length ≥ 7
          · rw [if_pos h7, if_neg (by
              simp only [ne_eq, not_not]
              simpa [List.getD] using h)]
          · rw [if_neg h7]
  · intro jar pair h
    rw [headerPair, h]
  · intro jar pair before after hsplit hname
    rw [headerPair, hsplit]
    simp [hname]

/-- C10 witness: concrete instantiations — a failing JSON parse on a
`[`-input errs with `InvalidJson`; a header-form input parses `Ok`; empty
input gives the empty jar; a short Netscape line, a pair without `'='` and
a pair with an empty name are all skipped. -/
theorem c10_cookie_parse_witness :
    (strStartsWith (rustTrim "[oops") "[" = true ∧
      ∃ msg, (fun _ => (.error "bad" : Except String (List Json))) (rustTrim "[oops") =
          .error msg ∧ (CookieError.invalidJson "bad") = .invalidJson msg) ∧
    (∃ jar, CookieJar.parse (fun _ => .error "bad") "a=1; b=2" = .ok jar) ∧
    CookieJar.parse (fun _ => .error "bad") "   " = .ok [] ∧
    netscapeLine [] "# comment" = [] ∧
    netscapeLine [] "one\ttwo" = [] ∧
    headerPair [] "noequals" = [] ∧
    headerPair [] " =v" = [] :=
  ⟨(c10_cookie_parse (fun _ => .error "bad") "[oops").1 (.invalidJson "bad") (by rfl),
    (c10_cookie_parse (fun _ => .error "bad") "a=1; b=2").2.1 (by decide),
    (c10_cookie_parse (fun _ => .error "bad") "   ").2.2.1 (by decide),
    (c10_cookie_parse (fun _ => .error "bad") "x").2.2.2.1 [] "# comment"
      (Or.inr (Or.inl (by decide))),
    (c10_cookie_parse (fun _ => .error "bad") "x").2.2.2.1 [] "one\ttwo"
      (Or.inr (Or.inr (Or.inl (by decide)))),
    (c10_cookie_parse (fun _ => .error "bad") "x").2.2.2.2.1 [] "noequals" (by decide),
    (c10_cookie_parse (fun _ => .error "bad") "x").2.2.2.2.2 [] " =v" "" "v"
      (by decide) (by decide)⟩

end Arcaferry.Cookies
